import Mathlib

/-!
Shallow embedding of `storage/innobase/trx/trx0undo.cc` (the undo-log segment
manager of the InnoDB/MariaDB storage engine) and proofs about it.

Machine integers are modelled as `Nat`/`Int`; a 4-byte store of a C `long`
value is modelled with an explicit `% 2^32` where the truncation matters
(the XID fields).  Page buffers are modelled as structures of named fields:
each named field corresponds to one engine-defined byte region of the page,
and the log headers that live inside a page are kept in an association list
keyed by their byte offset on the page.
-/

namespace TrxUndo

/-! ## Basic types and engine constants -/

/-- Type of an undo log segment: `TRX_UNDO_INSERT` or `TRX_UNDO_UPDATE`. -/
inductive UndoType where
  | insert
  | update
deriving DecidableEq, Repr

/-- The on-disk / in-memory lifecycle state of an undo log segment:
`TRX_UNDO_ACTIVE`, `TRX_UNDO_CACHED`, `TRX_UNDO_TO_FREE`,
`TRX_UNDO_TO_PURGE`, `TRX_UNDO_PREPARED`. -/
inductive UndoState where
  | active
  | cached
  | toFree
  | toPurge
  | prepared
deriving DecidableEq, Repr

/-- Error/result codes returned by the undo log assignment paths
(`dberr_t` values used in trx0undo.cc). -/
inductive Dberr where
  | DB_SUCCESS
  | DB_TOO_MANY_CONCURRENT_TRXS
  | DB_OUT_OF_FILE_SPACE
  | DB_OUT_OF_MEMORY
deriving DecidableEq, Repr

/-- Modelled from the spec: the universal page size of the engine
(engine-defined constant, default configuration). -/
def UNIV_PAGE_SIZE : Nat := 16384

/-- Modelled from the spec: byte offset of the undo page header
(engine-defined layout constant from trx0undo.h, not under src). -/
def TRX_UNDO_PAGE_HDR : Nat := 38

/-- Modelled from the spec: size of the undo page header. -/
def TRX_UNDO_PAGE_HDR_SIZE : Nat := 18

/-- Modelled from the spec: byte offset of the undo segment header. -/
def TRX_UNDO_SEG_HDR : Nat := TRX_UNDO_PAGE_HDR + TRX_UNDO_PAGE_HDR_SIZE

/-- Modelled from the spec: size of the undo segment header. -/
def TRX_UNDO_SEG_HDR_SIZE : Nat := 30

/-- Modelled from the spec: size of an old-style undo log header. -/
def TRX_UNDO_LOG_OLD_HDR_SIZE : Nat := 46

/-- Modelled from the spec: number of bytes in the XID data blob
(`XIDDATASIZE`). -/
def XIDDATASIZE : Nat := 128

/-- Modelled from the spec: size of an undo log header including the
X/Open XA identifier fields. -/
def TRX_UNDO_LOG_XA_HDR_SIZE : Nat := TRX_UNDO_LOG_OLD_HDR_SIZE + 12 + XIDDATASIZE

/-- Modelled from the spec: the page-reuse threshold below which a
one-page segment is cached at transaction finish (an engine-tuned
heuristic constant, `3/4` of the page size in trx0undo.h). -/
def TRX_UNDO_PAGE_REUSE_LIMIT : Nat := 3 * UNIV_PAGE_SIZE / 4

/-- Modelled from the spec: number of undo log slots in a rollback
segment header (`TRX_RSEG_N_SLOTS`). -/
def TRX_RSEG_N_SLOTS : Nat := UNIV_PAGE_SIZE / 16

/-- Modelled from the spec: the null page number `FIL_NULL`. -/
def FIL_NULL : Nat := 4294967295

/-! ## XID and log headers -/

/-- X/Open XA transaction identification (`XID` / `xid_t`): a C struct of
`long formatID`, `long gtrid_length`, `long bqual_length` and a byte blob
`data[XIDDATASIZE]`. -/
structure XID where
  formatID : Int
  gtrid_length : Int
  bqual_length : Int
  data : List Nat
deriving DecidableEq, Repr

/-- Modelled from the spec: the null XID (`xid.null()`), meaning that no
X/Open XA identification is present. -/
def XID.null : XID :=
  { formatID := -1, gtrid_length := 0, bqual_length := 0,
    data := List.replicate XIDDATASIZE 0 }

/-- One undo log header embedded in a segment header page
(the `TRX_UNDO_TRX_ID` .. `TRX_UNDO_XA_XID` byte fields at some offset).
The three 4-byte XA fields hold the stored 32-bit values. -/
structure LogHdr where
  trx_id : Nat
  del_marks : Bool
  log_start : Nat
  xid_exists : Bool
  dict_trans : Bool
  table_id : Nat
  next_log : Nat
  prev_log : Nat
  xa_format : Nat
  xa_trid_len : Nat
  xa_bqual_len : Nat
  xa_data : List Nat
deriving DecidableEq, Repr

instance : Inhabited LogHdr :=
  ⟨{ trx_id := 0, del_marks := false, log_start := 0, xid_exists := false,
     dict_trans := false, table_id := 0, next_log := 0, prev_log := 0,
     xa_format := 0, xa_trid_len := 0, xa_bqual_len := 0, xa_data := [] }⟩

/-- One undo record as far as this module observes it: its byte offset on
its page and its undo number (`trx_undo_rec_get_undo_no`).  The record
payload encoding is out of scope (external collaborator). -/
structure URec where
  off : Nat
  undo_no : Nat
deriving DecidableEq, Repr

/-- An undo log segment page, as a typed view of the byte regions that
trx0undo.cc reads and writes: the undo page header (`TRX_UNDO_PAGE_TYPE`,
`TRX_UNDO_PAGE_START`, `TRX_UNDO_PAGE_FREE`), the segment header
(`TRX_UNDO_STATE`, `TRX_UNDO_LAST_LOG`), the undo log headers stored on
the page keyed by byte offset, and the undo records physically on the
page in increasing byte-offset order. -/
structure UndoPage where
  page_no : Nat
  page_type : UndoType
  page_start : Nat
  page_free : Nat
  state : UndoState
  last_log : Nat
  logs : List (Nat × LogHdr)
  recs : List URec
deriving DecidableEq, Repr

/-- Read the log header stored at a byte offset of a page; reading a
location never written yields the all-zero header (uninitialized bytes). -/
def logHdrAt (p : UndoPage) (off : Nat) : LogHdr :=
  (p.logs.lookup off).getD default

/-- Write the log header fields at a byte offset of a page through an
update function, creating the entry from uninitialized bytes if needed. -/
def writeLogHdr (p : UndoPage) (off : Nat) (f : LogHdr → LogHdr) : UndoPage :=
  { p with logs := (off, f (logHdrAt p off)) :: p.logs.eraseP (fun e => e.1 == off) }

/-- The distinctly tagged redo log record types emitted by the header
operations of trx0undo.cc (`MLOG_UNDO_INIT`, `MLOG_UNDO_HDR_CREATE`,
`MLOG_UNDO_HDR_REUSE`, `MLOG_UNDO_HDR_DISCARD`).  Recovery replays each
kind with different semantics, so each operation emits its own tag. -/
inductive MtrRec where
  | MLOG_UNDO_INIT (type : UndoType)
  | MLOG_UNDO_HDR_CREATE (trx_id : Nat)
  | MLOG_UNDO_HDR_REUSE (trx_id : Nat)
  | MLOG_UNDO_HDR_DISCARD
deriving DecidableEq, Repr

/-! ## Page-level header operations (trx0undo.cc lines 379-858) -/

/-- `trx_undo_page_init` (trx0undo.cc lines 379-403): initializes the
fields in an undo log segment page and emits `MLOG_UNDO_INIT`. -/
def trx_undo_page_init (p : UndoPage) (type : UndoType) : UndoPage × List MtrRec :=
  ({ p with
      page_type := type,
      page_start := TRX_UNDO_PAGE_HDR + TRX_UNDO_PAGE_HDR_SIZE,
      page_free := TRX_UNDO_PAGE_HDR + TRX_UNDO_PAGE_HDR_SIZE },
   [MtrRec.MLOG_UNDO_INIT type])

/-- `trx_undo_header_create` (trx0undo.cc lines 517-589): creates a new
undo log header in file at the free offset of the page, advances the page
start and free offsets past the old-style header, links the header into
the in-page chain, and emits its own log record `MLOG_UNDO_HDR_CREATE`.
Returns the new page content, the header byte offset on the page, and the
emitted record. -/
def trx_undo_header_create (p : UndoPage) (trx_id : Nat) :
    UndoPage × Nat × List MtrRec :=
  let free := p.page_free
  let new_free := free + TRX_UNDO_LOG_OLD_HDR_SIZE
  let prev_log := p.last_log
  let p1 := { p with
      page_start := new_free,
      page_free := new_free,
      state := UndoState.active }
  let p2 := if prev_log ≠ 0
    then writeLogHdr p1 prev_log (fun h => { h with next_log := free })
    else p1
  let p3 := { p2 with last_log := free }
  let p4 := writeLogHdr p3 free (fun h =>
    { h with
        del_marks := true,
        trx_id := trx_id,
        log_start := new_free,
        xid_exists := false,
        dict_trans := false,
        next_log := 0,
        prev_log := prev_log })
  (p4, free, [MtrRec.MLOG_UNDO_HDR_CREATE trx_id])

/-- `trx_undo_write_xid` (trx0undo.cc lines 591-616): writes the X/Open
XA transaction identification to an undo log header.  Each of the three
`long` length/format fields is stored through a 4-byte write, hence
truncated to its value modulo `2^32`. -/
def trx_undo_write_xid (h : LogHdr) (xid : XID) : LogHdr :=
  { h with
      xa_format := (xid.formatID % (2 ^ 32 : Int)).toNat,
      xa_trid_len := (xid.gtrid_length % (2 ^ 32 : Int)).toNat,
      xa_bqual_len := (xid.bqual_length % (2 ^ 32 : Int)).toNat,
      xa_data := xid.data }

/-- `trx_undo_read_xid` (trx0undo.cc lines 618-637): reads the X/Open XA
transaction identification back from an undo log header; the stored
32-bit values are widened back to `long`. -/
def trx_undo_read_xid (h : LogHdr) : XID :=
  { formatID := Int.ofNat h.xa_format,
    gtrid_length := Int.ofNat h.xa_trid_len,
    bqual_length := Int.ofNat h.xa_bqual_len,
    data := h.xa_data }

/-- `trx_undo_header_add_space_for_xid` (trx0undo.cc lines 639-675): adds
space for the XA XID after an undo log old-style header, advancing the
page start and free offsets and the log-start offset of the header. -/
def trx_undo_header_add_space_for_xid (p : UndoPage) (log_off : Nat) : UndoPage :=
  let free := p.page_free
  let new_free := free + (TRX_UNDO_LOG_XA_HDR_SIZE - TRX_UNDO_LOG_OLD_HDR_SIZE)
  let p1 := { p with page_start := new_free, page_free := new_free }
  writeLogHdr p1 log_off (fun h => { h with log_start := new_free })

/-- `trx_undo_insert_header_reuse` (trx0undo.cc lines 726-784):
initializes a cached insert undo log header page for new use.  The header
is rebuilt in place at the fixed offset right after the segment header,
the page start and free offsets are reset to the end of that header
region, the new transaction id is written and the XID-exists and
dictionary-operation flags are cleared.  The operation has its own log
record type `MLOG_UNDO_HDR_REUSE`. -/
def trx_undo_insert_header_reuse (p : UndoPage) (trx_id : Nat) :
    UndoPage × Nat × List MtrRec :=
  let free := TRX_UNDO_SEG_HDR + TRX_UNDO_SEG_HDR_SIZE
  let new_free := free + TRX_UNDO_LOG_OLD_HDR_SIZE
  let p1 := { p with
      page_start := new_free,
      page_free := new_free,
      state := UndoState.active }
  let p2 := writeLogHdr p1 free (fun h =>
    { h with
        trx_id := trx_id,
        log_start := new_free,
        xid_exists := false,
        dict_trans := false })
  (p2, free, [MtrRec.MLOG_UNDO_HDR_REUSE trx_id])

/-! ## The in-memory undo log handle (`trx_undo_t`) -/

/-- The in-memory undo log object `trx_undo_t`: mirrors one on-disk
segment.  The buffer-pool bookkeeping fields (`guess_block`,
`withdraw_clock`) carry no observable state and are omitted. -/
structure TrxUndoMem where
  id : Nat
  type : UndoType
  state : UndoState
  del_marks : Bool
  trx_id : Nat
  xid : XID
  dict_operation : Bool
  table_id : Nat
  space : Nat
  hdr_page_no : Nat
  hdr_offset : Nat
  last_page_no : Nat
  size : Nat
  empty : Bool
  top_page_no : Nat
  top_offset : Nat
  top_undo_no : Nat
deriving DecidableEq, Repr

/-- `trx_undo_mem_create` (trx0undo.cc lines 1377-1430): creates and
initializes an undo log memory object.  The fields that the source
leaves uninitialized (`table_id`, `top_offset`, `top_undo_no`) are set
to zero here.  The `NULL`-on-allocation-failure outcome is modelled by
an oracle at the call sites. -/
def trx_undo_mem_create (space id : Nat) (type : UndoType) (trx_id : Nat)
    (xid : XID) (page_no offset : Nat) : TrxUndoMem :=
  { id := id,
    type := type,
    state := UndoState.active,
    del_marks := false,
    trx_id := trx_id,
    xid := xid,
    dict_operation := false,
    table_id := 0,
    space := space,
    hdr_page_no := page_no,
    hdr_offset := offset,
    last_page_no := page_no,
    size := 1,
    empty := true,
    top_page_no := page_no,
    top_offset := 0,
    top_undo_no := 0 }

/-- `trx_undo_mem_init_for_reuse` (trx0undo.cc lines 1432-1457):
initializes a cached undo log object for new use. -/
def trx_undo_mem_init_for_reuse (undo : TrxUndoMem) (trx_id : Nat) (xid : XID)
    (offset : Nat) : TrxUndoMem :=
  { undo with
      state := UndoState.active,
      del_marks := false,
      trx_id := trx_id,
      xid := xid,
      dict_operation := false,
      hdr_offset := offset,
      empty := true }

/-! ## Record navigation on a page

The byte-level record accessors live in trx0undo.ic / trx0rec.cc, which
are not part of this slice of the repository; they are modelled here from
the specification of the RecordNavigator (spec section 4.6) and from the
way trx0undo.cc uses them. -/

/-- Modelled from the spec: `trx_undo_page_get_start` (trx0undo.ic, not
under src).  The first byte offset of the records of the undo log
`(hdr_page_no, hdr_offset)` on a page: on the header page it is the
log-start offset stored in the log header, on any other page it is the
end of the fixed undo page header region. -/
def trx_undo_page_get_start (p : UndoPage) (hdr_page_no hdr_offset : Nat) : Nat :=
  if hdr_page_no = p.page_no then (logHdrAt p hdr_offset).log_start
  else TRX_UNDO_PAGE_HDR + TRX_UNDO_PAGE_HDR_SIZE

/-- Modelled from the spec: `trx_undo_page_get_end` (trx0undo.ic, not
under src).  The byte offset just past the records of the undo log on a
page: on the header page, if a later log header follows on the page its
offset bounds this log, otherwise the page free offset does. -/
def trx_undo_page_get_end (p : UndoPage) (hdr_page_no hdr_offset : Nat) : Nat :=
  if hdr_page_no = p.page_no then
    let next := (logHdrAt p hdr_offset).next_log
    if next ≠ 0 then next else p.page_free
  else p.page_free

/-- Modelled from the spec: the records of the undo log
`(hdr_page_no, hdr_offset)` that are live on a page, i.e. those whose
byte offset lies in the region `[start, end)` of that log on the page. -/
def trx_undo_page_recs (p : UndoPage) (hdr_page_no hdr_offset : Nat) : List URec :=
  p.recs.filter (fun r =>
    trx_undo_page_get_start p hdr_page_no hdr_offset ≤ r.off ∧
    r.off < trx_undo_page_get_end p hdr_page_no hdr_offset)

/-- Modelled from the spec: `trx_undo_page_get_first_rec` (trx0undo.ic,
not under src): the first record of the undo log on a page, none if the
region is empty. -/
def trx_undo_page_get_first_rec (p : UndoPage) (hdr_page_no hdr_offset : Nat) :
    Option URec :=
  (trx_undo_page_recs p hdr_page_no hdr_offset).head?

/-- Modelled from the spec: `trx_undo_page_get_last_rec` (trx0undo.ic,
not under src): the last record of the undo log on a page, none if the
region is empty. -/
def trx_undo_page_get_last_rec (p : UndoPage) (hdr_page_no hdr_offset : Nat) :
    Option URec :=
  (trx_undo_page_recs p hdr_page_no hdr_offset).getLast?

/-- The page following a given page in the page list of a segment
(the forward pointer of the page-list node, `flst_get_next_addr`); the
page list of a segment is modelled as the list of its pages in file-list
order, header page first. -/
def nextPageOf (pages : List UndoPage) (page_no : Nat) : Option UndoPage :=
  pages[(pages.findIdx (fun p => p.page_no == page_no)) + 1]?

/-- `trx_undo_get_next_rec_from_next_page` (trx0undo.cc lines 215-268):
gets the next record of the undo log from the next page.  On the header
page a nonzero next-log offset means this log ends on the header page
and there is no next record.  Returns the containing page together with
the record. -/
def trx_undo_get_next_rec_from_next_page (pages : List UndoPage) (p : UndoPage)
    (hdr_page_no hdr_offset : Nat) : Option (UndoPage × URec) :=
  if hdr_page_no = p.page_no ∧ (logHdrAt p hdr_offset).next_log ≠ 0 then none
  else
    match nextPageOf pages p.page_no with
    | none => none
    | some next_page =>
      (trx_undo_page_get_first_rec next_page hdr_page_no hdr_offset).map
        (fun r => (next_page, r))

/-- `trx_undo_get_first_rec` (trx0undo.cc lines 298-333): gets the first
record of an undo log: the first record on the header page, or else the
first record of the next page of the page list.  Returns the containing
page together with the record. -/
def trx_undo_get_first_rec (pages : List UndoPage) (hdr_page_no hdr_offset : Nat) :
    Option (UndoPage × URec) :=
  match pages.find? (fun p => p.page_no == hdr_page_no) with
  | none => none
  | some undo_page =>
    match trx_undo_page_get_first_rec undo_page hdr_page_no hdr_offset with
    | some rec => some (undo_page, rec)
    | none =>
      trx_undo_get_next_rec_from_next_page pages undo_page hdr_page_no hdr_offset

/-! ## Rollback segment model (`trx_rseg_t` and its header page) -/

/-- Which in-memory list of the rollback segment an undo log handle is
put into. -/
inductive RsegList where
  | insertActive
  | insertCached
  | updateActive
  | updateCached
deriving DecidableEq, Repr

/-- The rollback segment memory object `trx_rseg_t` joined with the
fields of its header page that trx0undo.cc touches: the slot table
(`TRX_RSEG_UNDO_SLOTS`, a page number or none for `FIL_NULL`), the
persisted history-size counter (`TRX_RSEG_HISTORY_SIZE`), the aggregate
size counters, and the four in-memory lists of undo log handles. -/
structure TrxRseg where
  space : Nat
  page_no : Nat
  curr_size : Nat
  max_size : Nat
  slots : List (Option Nat)
  history_size : Nat
  history : List Nat
  insert_undo_list : List TrxUndoMem
  insert_undo_cached : List TrxUndoMem
  update_undo_list : List TrxUndoMem
  update_undo_cached : List TrxUndoMem
deriving DecidableEq, Repr

/-- Modelled from the spec: `trx_rsegf_undo_find_free` (trx0rseg.ic, not
under src): the index of the first free slot of the rollback segment
header, none if the slot table is full. -/
def trx_rsegf_undo_find_free (slots : List (Option Nat)) : Option Nat :=
  slots.findIdx? (fun s => s.isNone)

/-- The environment oracle for the external file-space allocator and the
memory allocator: whether the extent reservation succeeds
(`fsp_reserve_free_extents`), which page the segment/page allocation
returns (`fseg_create_general` / `fseg_alloc_free_page_general`, none on
failure), and whether the handle allocation (`ut_malloc_nokey`)
succeeds. -/
structure FspEnv where
  reserve_ok : Bool
  alloc_page_no : Option Nat
  mem_alloc_ok : Bool
deriving DecidableEq, Repr

/-- A freshly allocated, not yet initialized undo page. -/
def blankPage (page_no : Nat) : UndoPage :=
  { page_no := page_no,
    page_type := UndoType.insert,
    page_start := 0,
    page_free := 0,
    state := UndoState.active,
    last_log := 0,
    logs := [],
    recs := [] }

/-- The header page of a freshly created undo log segment, as
initialized by the success path of `trx_undo_seg_create` (trx0undo.cc
lines 475-491): the page is initialized for the type, the free offset is
placed right after the segment header and the last-log offset is
cleared.  The page list of the new segment is the singleton of this
page. -/
def freshSegPage (type : UndoType) (page_no : Nat) : UndoPage :=
  { (trx_undo_page_init (blankPage page_no) type).1 with
      page_free := TRX_UNDO_SEG_HDR + TRX_UNDO_SEG_HDR_SIZE,
      last_log := 0 }

/-- `trx_undo_seg_create` (trx0undo.cc lines 405-500): creates a new undo
log segment in file.  A full slot table yields
`DB_TOO_MANY_CONCURRENT_TRXS`; a failed extent reservation or a failed
file segment allocation yields `DB_OUT_OF_FILE_SPACE`.  On success the
header page is initialized (its free offset placed after the segment
header, the last-log offset cleared, the page list made a singleton of
the header page) and the slot is pointed at it.  Returns the error code,
the updated rollback segment, and on success the slot index with the
initialized header page. -/
def trx_undo_seg_create (rseg : TrxRseg) (type : UndoType) (env : FspEnv) :
    Dberr × TrxRseg × Option (Nat × UndoPage) :=
  match trx_rsegf_undo_find_free rseg.slots with
  | none => (Dberr.DB_TOO_MANY_CONCURRENT_TRXS, rseg, none)
  | some slot_no =>
    if ¬ env.reserve_ok then (Dberr.DB_OUT_OF_FILE_SPACE, rseg, none)
    else
      match env.alloc_page_no with
      | none => (Dberr.DB_OUT_OF_FILE_SPACE, rseg, none)
      | some pno =>
        (Dberr.DB_SUCCESS,
         { rseg with slots := rseg.slots.set slot_no (some pno) },
         some (slot_no, freshSegPage type pno))

/-- `trx_undo_create` (trx0undo.cc lines 1471-1534): creates a new undo
log.  If the rollback segment is at its maximum size the call fails with
`DB_OUT_OF_FILE_SPACE` at once.  Otherwise the size counter is
optimistically incremented, the file segment is created, and on any
segment-creation error the counter is rolled back before the error is
returned.  On success the undo log header is created, space for an XA
identifier is added, and the memory object is created (failure of that
allocation yields `DB_OUT_OF_MEMORY`). -/
def trx_undo_create (rseg : TrxRseg) (type : UndoType) (trx_id : Nat)
    (xid : XID) (env : FspEnv) :
    Dberr × TrxRseg × Option (TrxUndoMem × UndoPage) :=
  if rseg.curr_size = rseg.max_size then
    (Dberr.DB_OUT_OF_FILE_SPACE, rseg, none)
  else
    let rseg1 := { rseg with curr_size := rseg.curr_size + 1 }
    match trx_undo_seg_create rseg1 type env with
    | (Dberr.DB_SUCCESS, rseg2, some (id, undo_page)) =>
      let page_no := undo_page.page_no
      let (p1, offset, _) := trx_undo_header_create undo_page trx_id
      let p2 := trx_undo_header_add_space_for_xid p1 offset
      if env.mem_alloc_ok then
        (Dberr.DB_SUCCESS, rseg2,
         some (trx_undo_mem_create rseg2.space id type trx_id xid page_no offset, p2))
      else
        (Dberr.DB_OUT_OF_MEMORY, rseg2, none)
    | (err, rseg2, _) =>
      (err, { rseg2 with curr_size := rseg2.curr_size - 1 }, none)

/-- `trx_undo_add_page` (trx0undo.cc lines 860-921): allocates one more
page for an undo log.  If the rollback segment is at its maximum size, or
the extent reservation fails, or the page allocation fails, nothing is
changed and no block is returned; otherwise the new page is initialized,
appended to the page list, and both the undo log size and the rollback
segment size counter are incremented. -/
def trx_undo_add_page (undo : TrxUndoMem) (rseg : TrxRseg)
    (pages : List UndoPage) (env : FspEnv) :
    Option Nat × TrxUndoMem × TrxRseg × List UndoPage :=
  if rseg.curr_size = rseg.max_size then (none, undo, rseg, pages)
  else if ¬ env.reserve_ok then (none, undo, rseg, pages)
  else
    match env.alloc_page_no with
    | none => (none, undo, rseg, pages)
    | some pno =>
      let undo1 := { undo with last_page_no := pno }
      let (new_page, _) := trx_undo_page_init (blankPage pno) undo.type
      (some pno,
       { undo1 with size := undo1.size + 1 },
       { rseg with curr_size := rseg.curr_size + 1 },
       pages ++ [new_page])

/-- `trx_undo_reuse_cached` (trx0undo.cc lines 1538-1610): reuses a
cached undo log: takes the first handle off the cached list of the kind
(none cached yields none), re-initializes its header page in place — a
header-reuse for insert kind, a header-create for update kind, each
followed by adding space for an XA identifier — and re-initializes the
memory object. -/
def trx_undo_reuse_cached (rseg : TrxRseg) (type : UndoType) (trx_id : Nat)
    (xid : XID) (pages : List UndoPage) :
    Option TrxUndoMem × TrxRseg × List UndoPage :=
  let cached := if type = UndoType.insert then rseg.insert_undo_cached
                else rseg.update_undo_cached
  match cached.head? with
  | none => (none, rseg, pages)
  | some undo =>
    let rseg1 :=
      if type = UndoType.insert then
        { rseg with insert_undo_cached := rseg.insert_undo_cached.tail }
      else
        { rseg with update_undo_cached := rseg.update_undo_cached.tail }
    let undo_page := (pages.find? (fun p => p.page_no == undo.hdr_page_no)).getD
      (blankPage undo.hdr_page_no)
    let (upd_page, offset) :=
      if type = UndoType.insert then
        let (p1, off, _) := trx_undo_insert_header_reuse undo_page trx_id
        (trx_undo_header_add_space_for_xid p1 off, off)
      else
        let (p1, off, _) := trx_undo_header_create undo_page trx_id
        (trx_undo_header_add_space_for_xid p1 off, off)
    let pages1 := pages.map (fun p =>
      if p.page_no = undo.hdr_page_no then upd_page else p)
    (some (trx_undo_mem_init_for_reuse undo trx_id xid offset), rseg1, pages1)

/-- `trx_undo_set_state_at_finish` (trx0undo.cc lines 1724-1764): sets
the state of the undo log segment at a transaction finish.  A one-page
segment whose free offset is below the page-reuse threshold becomes
`TRX_UNDO_CACHED`; otherwise an insert log becomes `TRX_UNDO_TO_FREE`
and an update log becomes `TRX_UNDO_TO_PURGE`.  The chosen state is
written both to the memory object and to the segment header on the
page. -/
def trx_undo_set_state_at_finish (undo : TrxUndoMem) (p : UndoPage) :
    TrxUndoMem × UndoPage :=
  let state :=
    if undo.size = 1 ∧ p.page_free < TRX_UNDO_PAGE_REUSE_LIMIT then
      UndoState.cached
    else if undo.type = UndoType.insert then
      UndoState.toFree
    else
      UndoState.toPurge
  ({ undo with state := state }, { p with state := state })

/-- `trx_undo_set_state_at_prepare` (trx0undo.cc lines 1766-1818): at an
XA ROLLBACK (`rollback = true`) the segment state on the page is set
back to `TRX_UNDO_ACTIVE`; at an XA PREPARE the state becomes
`TRX_UNDO_PREPARED` in memory and on the page, and the XA identifier of
the transaction is persisted into the last undo log header with the
XID-exists flag set. -/
def trx_undo_set_state_at_prepare (undo : TrxUndoMem) (p : UndoPage)
    (rollback : Bool) (trx_xid : XID) : TrxUndoMem × UndoPage :=
  if rollback then
    (undo, { p with state := UndoState.active })
  else
    let undo1 := { undo with state := UndoState.prepared, xid := trx_xid }
    let p1 := { p with state := UndoState.prepared }
    let offset := p1.last_log
    let p2 := writeLogHdr p1 offset (fun h =>
      trx_undo_write_xid { h with xid_exists := true } undo1.xid)
    (undo1, p2)

/-- Modelled from the spec: `trx_purge_add_update_undo_to_history`
(trx0purge.cc, not under src): appends the committed update undo log
header to the durable history list of the rollback segment (append-one
contract of the HistoryList component). -/
def trx_purge_add_update_undo_to_history (rseg : TrxRseg) (undo : TrxUndoMem) :
    TrxRseg :=
  { rseg with history := undo.trx_id :: rseg.history }

/-- `trx_undo_update_cleanup` (trx0undo.cc lines 1820-1854): adds the
update undo log header to the history list, removes the handle from the
update-active list, and either moves it to the update-cached list (state
`TRX_UNDO_CACHED`) or frees the memory object (state
`TRX_UNDO_TO_PURGE`). -/
def trx_undo_update_cleanup (rseg : TrxRseg) (undo : TrxUndoMem) : TrxRseg :=
  let rseg0 := trx_purge_add_update_undo_to_history rseg undo
  let rseg1 := { rseg0 with update_undo_list := rseg0.update_undo_list.erase undo }
  if undo.state = UndoState.cached then
    { rseg1 with update_undo_cached := undo :: rseg1.update_undo_cached }
  else
    rseg1

/-- `trx_undo_commit_cleanup` (trx0undo.cc lines 1856-1889): removes the
insert undo log handle from the insert-active list and either moves it
to the insert-cached list (state `TRX_UNDO_CACHED`) or frees the file
segment (clearing its slot) and subtracts its size from the rollback
segment size counter before freeing the memory object. -/
def trx_undo_commit_cleanup (rseg : TrxRseg) (undo : TrxUndoMem) : TrxRseg :=
  let rseg1 := { rseg with insert_undo_list := rseg.insert_undo_list.erase undo }
  if undo.state = UndoState.cached then
    { rseg1 with insert_undo_cached := undo :: rseg1.insert_undo_cached }
  else
    let rseg2 := { rseg1 with slots := rseg1.slots.set undo.id none }
    { rseg2 with curr_size := rseg2.curr_size - undo.size }

/-- `trx_undo_mem_create_at_db_start` (trx0undo.cc lines 1200-1319):
creates an undo log memory object from the header page at database
start.  Reads the type, state, last-log offset, transaction id and
(when the XID-exists flag is set) the XA identifier from the page, sets
the dictionary-operation flag and table id, takes the segment size from
the page list length, locates the last page and its last record unless
the segment is being freed, and reports which rollback segment list the
object is added to. -/
def trx_undo_mem_create_at_db_start (space : Nat) (pages : List UndoPage)
    (id page_no : Nat) : Option (TrxUndoMem × RsegList) :=
  match pages.find? (fun p => p.page_no == page_no) with
  | none => none
  | some undo_page =>
    let type := undo_page.page_type
    let state := undo_page.state
    let offset := undo_page.last_log
    let undo_header := logHdrAt undo_page offset
    let trx_id := undo_header.trx_id
    let xid_exists := undo_header.xid_exists
    let xid := if xid_exists then trx_undo_read_xid undo_header else XID.null
    let undo := trx_undo_mem_create space id type trx_id xid page_no offset
    let undo := { undo with
        dict_operation := undo_header.dict_trans,
        table_id := undo_header.table_id,
        state := state,
        size := pages.length }
    let undo :=
      if state = UndoState.toFree then undo
      else
        let last_page_no := ((pages.getLast?).map (fun p => p.page_no)).getD FIL_NULL
        let undo := { undo with
            last_page_no := last_page_no, top_page_no := last_page_no }
        match pages.getLast? with
        | none => undo
        | some last_page =>
          match trx_undo_page_get_last_rec last_page page_no offset with
          | none => { undo with empty := true }
          | some rec =>
            { undo with
                empty := false, top_offset := rec.off, top_undo_no := rec.undo_no }
    let lst :=
      match type with
      | UndoType.insert =>
        if state ≠ UndoState.cached then RsegList.insertActive
        else RsegList.insertCached
      | UndoType.update =>
        if state ≠ UndoState.cached then RsegList.updateActive
        else RsegList.updateCached
    some (undo, lst)

/-! ## Truncation (trx0undo.cc lines 923-1144)

The page list of one undo log segment is modelled as the list of its
pages in file-list order, header page first (the durable file list is
anchored in the segment header; its order is the list order here). -/

/-- The records of an undo log live on each page of a page list, joined
in page order. -/
def liveJoin (pages : List UndoPage) (hdr_page_no hdr_offset : Nat) : List URec :=
  (pages.map (fun p => trx_undo_page_recs p hdr_page_no hdr_offset)).flatten

/-- Total number of live records of an undo log over a page list
(used as the termination measure of the truncation loops). -/
def totalLive (pages : List UndoPage) (hdr_page_no hdr_offset : Nat) : Nat :=
  ((pages.map (fun p => (trx_undo_page_recs p hdr_page_no hdr_offset).length)).sum)

/-- The inner `while (rec)` loop of `trx_undo_truncate_end`
(trx0undo.cc lines 1044-1056), walking the records of the last page from
the last one backwards (the argument is the live record list already
reversed).  Each record with undo number at or above the limit updates
`trunc_here`; the first record below the limit exits the loop through
`goto function_exit`.  Returns the final `trunc_here` and whether the
loop exited through the goto. -/
def truncEndScan (limit : Nat) : List URec → Option URec × Bool
  | [] => (none, false)
  | r :: rest =>
    if limit ≤ r.undo_no then
      match truncEndScan limit rest with
      | (none, hit) => (some r, hit)
      | (some t, hit) => (some t, hit)
    else
      (none, true)

/-- The truncation predicate of `trx_undo_truncate_end`: a record whose
undo number is at or above the limit is a candidate for truncation. -/
def recAtOrAbove (limit : Nat) : URec → Bool :=
  fun r => limit ≤ r.undo_no

/-- `trx_undo_free_page` (trx0undo.cc lines 923-975): frees an undo log
page that is not the header page: the page is removed from the page
list, returned to the file-space allocator, the rollback segment size
counter is decremented and, when the log is in the history list, the
persisted history-size counter is decremented.  Returns the last page
number of the remaining list, the new size counter, the new history-size
counter and the remaining page list. -/
def trx_undo_free_page (curr_size : Nat) (in_history : Bool) (hist_size : Nat)
    (pages : List UndoPage) (page_no : Nat) :
    Nat × Nat × Nat × List UndoPage :=
  let pages1 := pages.filter (fun p => p.page_no ≠ page_no)
  let last_addr := ((pages1.getLast?.map (fun p => p.page_no)).getD FIL_NULL)
  (last_addr, curr_size - 1,
   if in_history then hist_size - 1 else hist_size, pages1)

/-- `trx_undo_free_last_page` (trx0undo.cc lines 977-992): frees the
last page of an undo log, updating the last page number and the sizes. -/
def trx_undo_free_last_page (undo : TrxUndoMem) (curr_size : Nat)
    (pages : List UndoPage) : TrxUndoMem × Nat × List UndoPage :=
  let r := trx_undo_free_page curr_size false 0 pages undo.last_page_no
  ({ undo with last_page_no := r.1, size := undo.size - 1 }, r.2.1, r.2.2.2)

/-- `trx_undo_truncate_end` (trx0undo.cc lines 1022-1074): truncates the
tail of an undo log during rollback.  Each iteration fetches the last
page and walks its records backwards; if a record below the limit is
found, or the last page is the header page, the loop finishes, rewinding
the page free offset to the first truncated record when there is one;
otherwise the whole last page holds no record below the limit and is
freed, and the loop repeats on the new last page. -/
def trx_undo_truncate_end (undo : TrxUndoMem) (curr_size : Nat)
    (pages : List UndoPage) (limit : Nat) : TrxUndoMem × Nat × List UndoPage :=
  match hfind : pages.find? (fun p => p.page_no == undo.last_page_no) with
  | none => (undo, curr_size, pages)
  | some undo_page =>
    let scan := truncEndScan limit
      (trx_undo_page_recs undo_page undo.hdr_page_no undo.hdr_offset).reverse
    if scan.2 = true ∨ undo.last_page_no = undo.hdr_page_no then
      match scan.1 with
      | some trunc_here =>
        (undo, curr_size,
         pages.map (fun p =>
           if p.page_no = undo.last_page_no then
             { p with page_free := trunc_here.off }
           else p))
      | none => (undo, curr_size, pages)
    else
      let r := trx_undo_free_last_page undo curr_size pages
      trx_undo_truncate_end r.1 r.2.1 r.2.2 limit
termination_by pages.length
decreasing_by
  have hmem : undo_page ∈ pages := List.mem_of_find?_eq_some hfind
  have hq := List.find?_some hfind
  simp only [trx_undo_free_last_page, trx_undo_free_page]
  have hsub : List.Sublist (pages.filter (fun p => p.page_no ≠ undo.last_page_no))
      pages := List.filter_sublist pages
  rcases Nat.lt_or_ge (pages.filter (fun p => p.page_no ≠ undo.last_page_no)).length
      pages.length with hlt | hge
  · exact hlt
  · exfalso
    have heq : (pages.filter (fun p => p.page_no ≠ undo.last_page_no)) = pages :=
      hsub.eq_of_length (Nat.le_antisymm hsub.length_le hge)
    have hmemf : undo_page ∈ pages.filter (fun p => p.page_no ≠ undo.last_page_no) := by
      rw [heq]; exact hmem
    have := List.of_mem_filter hmemf
    simp only [beq_iff_eq] at hq
    simp [hq] at this

/-- `trx_undo_empty_header_page` (trx0undo.cc lines 994-1020): empties
an undo log header page of the records of that undo log by advancing the
log-start offset of the log header past all of them (to the end offset
of the log region on the page).  Other undo logs may still have records
on the page. -/
def trx_undo_empty_header_page (pages : List UndoPage)
    (hdr_page_no hdr_offset : Nat) : List UndoPage :=
  pages.map (fun p =>
    if p.page_no = hdr_page_no then
      writeLogHdr p hdr_offset (fun h =>
        { h with log_start := trx_undo_page_get_end p hdr_page_no hdr_offset })
    else p)

/-- The `loop` of `trx_undo_truncate_start` (trx0undo.cc lines
1102-1144): fetch the first record of the undo log (none: already empty,
done); if the last record of its page is at or above the limit, nothing
to do, done; otherwise empty the header page if the record lies on it,
or unlink and free the page (decrementing the persisted history-size
counter), and repeat. -/
def trx_undo_truncate_start_loop (hdr_page_no hdr_offset limit : Nat)
    (curr_size hist_size : Nat) (pages : List UndoPage) :
    Nat × Nat × List UndoPage :=
  match hrec : trx_undo_get_first_rec pages hdr_page_no hdr_offset with
  | none => (curr_size, hist_size, pages)
  | some (undo_page, rec) =>
    let last_rec :=
      (trx_undo_page_get_last_rec undo_page hdr_page_no hdr_offset).getD rec
    if limit ≤ last_rec.undo_no then
      (curr_size, hist_size, pages)
    else if hpg : undo_page.page_no = hdr_page_no then
      trx_undo_truncate_start_loop hdr_page_no hdr_offset limit
        curr_size hist_size
        (trx_undo_empty_header_page pages hdr_page_no hdr_offset)
    else
      let r := trx_undo_free_page curr_size true hist_size pages undo_page.page_no
      trx_undo_truncate_start_loop hdr_page_no hdr_offset limit
        r.2.1 r.2.2.1 r.2.2.2
termination_by totalLive pages hdr_page_no hdr_offset + pages.length
decreasing_by
  · -- the header page is emptied: the page count is unchanged and the
    -- live record count strictly decreases
    have hmemrec : undo_page ∈ pages ∧
        rec ∈ trx_undo_page_recs undo_page hdr_page_no hdr_offset := by
      unfold trx_undo_get_first_rec at hrec
      split at hrec
      · exact absurd hrec (by simp)
      · rename_i hp hfind
        split at hrec
        · rename_i r0 hfst
          simp only [Option.some.injEq, Prod.mk.injEq] at hrec
          obtain ⟨h1, h2⟩ := hrec
          subst h1; subst h2
          refine ⟨List.mem_of_find?_eq_some hfind, ?_⟩
          unfold trx_undo_page_get_first_rec at hfst
          exact List.mem_of_mem_head? (Option.mem_def.mpr hfst)
        · unfold trx_undo_get_next_rec_from_next_page at hrec
          split at hrec
          · exact absurd hrec (by simp)
          · split at hrec
            · exact absurd hrec (by simp)
            · rename_i np hnx
              rw [Option.map_eq_some'] at hrec
              obtain ⟨r2, hfst2, heq⟩ := hrec
              simp only [Prod.mk.injEq] at heq
              obtain ⟨h1, h2⟩ := heq
              subst h1; subst h2
              refine ⟨?_, ?_⟩
              · unfold nextPageOf at hnx
                exact List.getElem?_mem hnx
              · unfold trx_undo_page_get_first_rec at hfst2
                exact List.mem_of_mem_head? (Option.mem_def.mpr hfst2)
    have hnil : ∀ q : UndoPage, q.page_no = hdr_page_no →
        trx_undo_page_recs (writeLogHdr q hdr_offset (fun h =>
          { h with log_start := trx_undo_page_get_end q hdr_page_no hdr_offset }))
          hdr_page_no hdr_offset = [] := by
      intro q hq
      unfold trx_undo_page_recs trx_undo_page_get_start trx_undo_page_get_end
        writeLogHdr logHdrAt
      rw [List.filter_eq_nil_iff]
      intro r _
      simp only [hq, List.lookup, beq_self_eq_true, Option.getD_some,
        eq_self_iff_true, if_true, decide_eq_true_eq]
      omega
    have hlive : totalLive (trx_undo_empty_header_page pages hdr_page_no hdr_offset)
        hdr_page_no hdr_offset < totalLive pages hdr_page_no hdr_offset := by
      unfold totalLive trx_undo_empty_header_page
      rw [List.map_map]
      refine List.sum_lt_sum _ _ (fun p _ => ?_) ⟨undo_page, hmemrec.1, ?_⟩
      · simp only [Function.comp_apply]
        by_cases hp : p.page_no = hdr_page_no
        · rw [if_pos hp, hnil p hp]
          simp
        · rw [if_neg hp]
      · simp only [Function.comp_apply]
        rw [if_pos hpg, hnil undo_page hpg]
        simp only [List.length_nil]
        exact List.length_pos.mpr (List.ne_nil_of_mem hmemrec.2)
    have hlen : (trx_undo_empty_header_page pages hdr_page_no hdr_offset).length
        = pages.length := by
      unfold trx_undo_empty_header_page
      simp
    omega
  · -- a non-header page is freed: the page count strictly decreases and
    -- the live record count does not increase
    have hmemrec : undo_page ∈ pages ∧
        rec ∈ trx_undo_page_recs undo_page hdr_page_no hdr_offset := by
      unfold trx_undo_get_first_rec at hrec
      split at hrec
      · exact absurd hrec (by simp)
      · rename_i hp hfind
        split at hrec
        · rename_i r0 hfst
          simp only [Option.some.injEq, Prod.mk.injEq] at hrec
          obtain ⟨h1, h2⟩ := hrec
          subst h1; subst h2
          refine ⟨List.mem_of_find?_eq_some hfind, ?_⟩
          unfold trx_undo_page_get_first_rec at hfst
          exact List.mem_of_mem_head? (Option.mem_def.mpr hfst)
        · unfold trx_undo_get_next_rec_from_next_page at hrec
          split at hrec
          · exact absurd hrec (by simp)
          · split at hrec
            · exact absurd hrec (by simp)
            · rename_i np hnx
              rw [Option.map_eq_some'] at hrec
              obtain ⟨r2, hfst2, heq⟩ := hrec
              simp only [Prod.mk.injEq] at heq
              obtain ⟨h1, h2⟩ := heq
              subst h1; subst h2
              refine ⟨?_, ?_⟩
              · unfold nextPageOf at hnx
                exact List.getElem?_mem hnx
              · unfold trx_undo_page_get_first_rec at hfst2
                exact List.mem_of_mem_head? (Option.mem_def.mpr hfst2)
    simp only [trx_undo_free_page]
    have hsub : List.Sublist (pages.filter (fun p => p.page_no ≠ undo_page.page_no))
        pages := List.filter_sublist pages
    have hlen : (pages.filter (fun p => p.page_no ≠ undo_page.page_no)).length
        < pages.length := by
      rcases Nat.lt_or_ge (pages.filter (fun p => p.page_no ≠ undo_page.page_no)).length
          pages.length with hlt | hge
      · exact hlt
      · exfalso
        have heq : (pages.filter (fun p => p.page_no ≠ undo_page.page_no)) = pages :=
          hsub.eq_of_length (Nat.le_antisymm hsub.length_le hge)
        have hmemf : undo_page ∈ pages.filter (fun p => p.page_no ≠ undo_page.page_no) := by
          rw [heq]; exact hmemrec.1
        have := List.of_mem_filter hmemf
        simp at this
    have hlive : totalLive (pages.filter (fun p => p.page_no ≠ undo_page.page_no))
        hdr_page_no hdr_offset ≤ totalLive pages hdr_page_no hdr_offset := by
      unfold totalLive
      exact List.Sublist.sum_le_sum (hsub.map _) (fun a _ => Nat.zero_le a)
    omega


/-- `trx_undo_truncate_start` (trx0undo.cc lines 1076-1144): truncates
the head of an undo log; a zero limit returns at once without touching
anything.  Returns the new rollback segment size counter, history-size
counter and page list. -/
def trx_undo_truncate_start (curr_size hist_size : Nat) (pages : List UndoPage)
    (hdr_page_no hdr_offset limit : Nat) : Nat × Nat × List UndoPage :=
  if limit = 0 then (curr_size, hist_size, pages)
  else trx_undo_truncate_start_loop hdr_page_no hdr_offset limit
    curr_size hist_size pages

/-! ## Derived predicates -/

/-- The cached-list invariant of a rollback segment: every undo log
handle residing in an insert-cached or update-cached list spans exactly
one page. -/
def cachedInv (rseg : TrxRseg) : Prop :=
  (∀ u ∈ rseg.insert_undo_cached, u.size = 1) ∧
  (∀ u ∈ rseg.update_undo_cached, u.size = 1)

instance (rseg : TrxRseg) : Decidable (cachedInv rseg) := by
  unfold cachedInv; infer_instance

/-- Well-formedness of one undo log segment and its in-memory handle:
the page list is nonempty and starts with the header page; page numbers
are distinct; the handle points at the last page of the list; records on
each page are stored in strictly increasing byte-offset order; and the
undo log is the last log on its header page (its next-log offset is
zero). -/
def segWF (undo : TrxUndoMem) (pages : List UndoPage) : Prop :=
  pages ≠ [] ∧
  (pages.head?.map (fun p => p.page_no)) = some undo.hdr_page_no ∧
  (pages.map (fun p => p.page_no)).Nodup ∧
  ((pages.getLast?.map (fun p => p.page_no)).getD FIL_NULL) = undo.last_page_no ∧
  (∀ p ∈ pages, (p.recs.map URec.off).Pairwise (· < ·)) ∧
  (∀ p ∈ pages, p.page_no = undo.hdr_page_no →
    (logHdrAt p undo.hdr_offset).next_log = 0)

instance (undo : TrxUndoMem) (pages : List UndoPage) :
    Decidable (segWF undo pages) := by
  unfold segWF; infer_instance

/-- The undo numbers of the records of an undo log are non-decreasing
along the page list (records are appended in undo-number order). -/
def ascUndoNos (pages : List UndoPage) (hdr_page_no hdr_offset : Nat) : Prop :=
  ((liveJoin pages hdr_page_no hdr_offset).map URec.undo_no).Pairwise (· ≤ ·)

instance (pages : List UndoPage) (hdr_page_no hdr_offset : Nat) :
    Decidable (ascUndoNos pages hdr_page_no hdr_offset) := by
  unfold ascUndoNos liveJoin; infer_instance

/-! ## Concrete example data

A two-page update undo log matching the truncate-start example of the
specification: records with undo numbers 0 and 1 on the header page
`exP0` (page number 1, log header at byte offset 86, records at byte
offsets 200 and 220), records 2 and 3 on the second page `exP1`
(page number 2, records at byte offsets 100 and 120). -/

/-- Example header page P0 of the truncate-start scenario. -/
def exP0 : UndoPage :=
  { page_no := 1,
    page_type := UndoType.update,
    page_start := 150,
    page_free := 240,
    state := UndoState.active,
    last_log := 86,
    logs := [(86, { (default : LogHdr) with log_start := 150 })],
    recs := [⟨200, 0⟩, ⟨220, 1⟩] }

/-- Example second page P1 of the truncate-start scenario. -/
def exP1 : UndoPage :=
  { page_no := 2,
    page_type := UndoType.update,
    page_start := 56,
    page_free := 300,
    state := UndoState.active,
    last_log := 0,
    logs := [],
    recs := [⟨100, 2⟩, ⟨120, 3⟩] }

/-- The header page P0 after its log has been emptied by head
truncation: the log-start offset of the log header is advanced to the
free offset of the page. -/
def exP0E : UndoPage :=
  { exP0 with logs := [(86, { (default : LogHdr) with log_start := 240 })] }

/-- An in-memory handle for the two-page example log (update kind,
header page 1, log header offset 86, last page 2). -/
def exUndo2 : TrxUndoMem :=
  { trx_undo_mem_create 0 0 UndoType.update 9 XID.null 1 86 with
      last_page_no := 2, size := 2 }

/-- An allocator environment in which every external allocation
succeeds, handing out page number 5. -/
def exEnv : FspEnv :=
  { reserve_ok := true, alloc_page_no := some 5, mem_alloc_ok := true }

/-- A rollback segment whose slot table is completely occupied and whose
size counter has reached the maximum. -/
def exRsegFullMax : TrxRseg :=
  { space := 0, page_no := 3, curr_size := 4, max_size := 4,
    slots := List.replicate TRX_RSEG_N_SLOTS (some 9),
    history_size := 0, history := [],
    insert_undo_list := [], insert_undo_cached := [],
    update_undo_list := [], update_undo_cached := [] }

/-- A rollback segment whose slot table is completely occupied while the
size counter is still below the maximum. -/
def exRsegFull : TrxRseg :=
  { exRsegFullMax with curr_size := 3 }

/-- A rollback segment with room: empty slot table entries and cached
lists holding one-page handles. -/
def exRseg : TrxRseg :=
  { space := 0, page_no := 3, curr_size := 2, max_size := 100,
    slots := [none, some 5, none, none],
    history_size := 0, history := [],
    insert_undo_list := [trx_undo_mem_create 0 1 UndoType.insert 7 XID.null 5 86],
    insert_undo_cached := [],
    update_undo_list := [],
    update_undo_cached := [trx_undo_mem_create 0 2 UndoType.update 8 XID.null 6 86] }

/-- A well-formed XID whose fields all fit in their 4-byte stores. -/
def exGoodXID : XID :=
  { formatID := 7, gtrid_length := 3, bqual_length := 4,
    data := List.replicate XIDDATASIZE 2 }

/-- An XID whose format identifier is the negative null marker; its
4-byte on-disk store does not round-trip. -/
def exNegXID : XID :=
  { formatID := -1, gtrid_length := 1, bqual_length := 1,
    data := List.replicate XIDDATASIZE 0 }

/-- The header page written for the C7 round-trip at transaction id 9,
update kind, page number 5: header create on a fresh segment header
page, followed by adding XA space. -/
def exHdrPage : UndoPage :=
  trx_undo_header_add_space_for_xid
    (trx_undo_header_create (freshSegPage UndoType.update 5) 9).1
    (trx_undo_header_create (freshSegPage UndoType.update 5) 9).2.1

/-- `exHdrPage` after an XA PREPARE has persisted `exNegXID` into the
log header with the XID-exists flag set. -/
def exPrepNegPage : UndoPage :=
  (trx_undo_set_state_at_prepare
    (trx_undo_mem_create 0 0 UndoType.update 9 exNegXID 5
      (trx_undo_header_create (freshSegPage UndoType.update 5) 9).2.1)
    exHdrPage false exNegXID).2

/-! # Theorems -/

/-- C1: at a transaction finish, `trx_undo_set_state_at_finish` sets the
segment state to Cached exactly when the segment size is one page and the
free offset of the header page is below the page-reuse threshold;
otherwise the state becomes ToFree for Insert-kind logs and ToPurge for
Update-kind logs; and the chosen state is written both to the in-memory
handle and to the on-disk segment header. -/
theorem C1_set_state_at_finish (undo : TrxUndoMem) (p : UndoPage) :
    ((trx_undo_set_state_at_finish undo p).1.state = UndoState.cached ↔
      undo.size = 1 ∧ p.page_free < TRX_UNDO_PAGE_REUSE_LIMIT) ∧
    (¬ (undo.size = 1 ∧ p.page_free < TRX_UNDO_PAGE_REUSE_LIMIT) →
      (trx_undo_set_state_at_finish undo p).1.state =
        (if undo.type = UndoType.insert then UndoState.toFree
         else UndoState.toPurge)) ∧
    (trx_undo_set_state_at_finish undo p).2.state =
      (trx_undo_set_state_at_finish undo p).1.state := by
  unfold trx_undo_set_state_at_finish
  by_cases h : undo.size = 1 ∧ p.page_free < TRX_UNDO_PAGE_REUSE_LIMIT
  · simp [h]
  · by_cases ht : undo.type = UndoType.insert <;> simp [h, ht]

/-- Witness for C1 at a concrete input: a two-page insert undo log is
not cached but marked ToFree. -/
theorem C1_witness :
    (trx_undo_set_state_at_finish
      { trx_undo_mem_create 0 0 UndoType.insert 10 XID.null 5 86 with size := 2 }
      (blankPage 5)).1.state = UndoState.toFree := by
  have h := (C1_set_state_at_finish
    { trx_undo_mem_create 0 0 UndoType.insert 10 XID.null 5 86 with size := 2 }
    (blankPage 5)).2.1 (by decide)
  simpa using h

/-- C10: head truncation with limit zero is a total no-op:
`trx_undo_truncate_start` returns at once with every counter and every
page unchanged, whatever the contents of the segment. -/
theorem C10_truncate_start_zero_limit (curr_size hist_size : Nat)
    (pages : List UndoPage) (hdr_page_no hdr_offset : Nat) :
    trx_undo_truncate_start curr_size hist_size pages hdr_page_no hdr_offset 0 =
      (curr_size, hist_size, pages) := by
  unfold trx_undo_truncate_start
  simp

/-- C6: reusing a cached Insert-kind segment for a new transaction id
rebuilds the header in place: the page start and free offsets are set
back to the header-region-end constant, the new transaction id is
written, the XID-exists and dictionary-operation flags are cleared,
adding XA space then reserves room for an XA identifier (advancing the
offsets to the XA header end), and the operation emits its own
header-reuse log record, distinct from every header-create record. -/
theorem C6_insert_header_reuse (p : UndoPage) (trx_id : Nat)
    (hp : p.page_type = UndoType.insert) :
    (trx_undo_insert_header_reuse p trx_id).1.page_start
      = TRX_UNDO_SEG_HDR + TRX_UNDO_SEG_HDR_SIZE + TRX_UNDO_LOG_OLD_HDR_SIZE ∧
    (trx_undo_insert_header_reuse p trx_id).1.page_free
      = TRX_UNDO_SEG_HDR + TRX_UNDO_SEG_HDR_SIZE + TRX_UNDO_LOG_OLD_HDR_SIZE ∧
    (logHdrAt (trx_undo_insert_header_reuse p trx_id).1
      (trx_undo_insert_header_reuse p trx_id).2.1).trx_id = trx_id ∧
    (logHdrAt (trx_undo_insert_header_reuse p trx_id).1
      (trx_undo_insert_header_reuse p trx_id).2.1).xid_exists = false ∧
    (logHdrAt (trx_undo_insert_header_reuse p trx_id).1
      (trx_undo_insert_header_reuse p trx_id).2.1).dict_trans = false ∧
    (trx_undo_header_add_space_for_xid (trx_undo_insert_header_reuse p trx_id).1
      (trx_undo_insert_header_reuse p trx_id).2.1).page_start
      = TRX_UNDO_SEG_HDR + TRX_UNDO_SEG_HDR_SIZE + TRX_UNDO_LOG_XA_HDR_SIZE ∧
    (trx_undo_header_add_space_for_xid (trx_undo_insert_header_reuse p trx_id).1
      (trx_undo_insert_header_reuse p trx_id).2.1).page_free
      = TRX_UNDO_SEG_HDR + TRX_UNDO_SEG_HDR_SIZE + TRX_UNDO_LOG_XA_HDR_SIZE ∧
    (trx_undo_insert_header_reuse p trx_id).2.2
      = [MtrRec.MLOG_UNDO_HDR_REUSE trx_id] ∧
    (∀ (q : UndoPage) (tid2 : Nat),
      (trx_undo_insert_header_reuse p trx_id).2.2
        ≠ (trx_undo_header_create q tid2).2.2) := by
  refine ⟨?_, ?_, ?_, ?_, ?_, ?_, ?_, ?_, ?_⟩ <;>
    simp [trx_undo_insert_header_reuse, trx_undo_header_add_space_for_xid,
      trx_undo_header_create, writeLogHdr, logHdrAt, List.lookup,
      TRX_UNDO_SEG_HDR, TRX_UNDO_SEG_HDR_SIZE, TRX_UNDO_PAGE_HDR,
      TRX_UNDO_PAGE_HDR_SIZE, TRX_UNDO_LOG_OLD_HDR_SIZE,
      TRX_UNDO_LOG_XA_HDR_SIZE, XIDDATASIZE]

/-- Witness for C6 at a concrete input: reusing a fresh insert segment
header page for transaction id 11. -/
theorem C6_witness :
    (trx_undo_insert_header_reuse (freshSegPage UndoType.insert 5) 11).1.page_start
      = TRX_UNDO_SEG_HDR + TRX_UNDO_SEG_HDR_SIZE + TRX_UNDO_LOG_OLD_HDR_SIZE :=
  (C6_insert_header_reuse (freshSegPage UndoType.insert 5) 11 (by decide)).1

/-- C5 (amended): whenever `trx_undo_create` fails with
TooManyConcurrentTransactions or OutOfFileSpace, the size counter of the
rollback segment is exactly what it was before the call; and when every
slot is occupied while the segment is below its maximum size, the result
is TooManyConcurrentTransactions with the size counter unchanged. -/
theorem C5_create_error_atomicity (rseg : TrxRseg) (type : UndoType)
    (trx_id : Nat) (xid : XID) (env : FspEnv) :
    (((trx_undo_create rseg type trx_id xid env).1 = Dberr.DB_TOO_MANY_CONCURRENT_TRXS ∨
      (trx_undo_create rseg type trx_id xid env).1 = Dberr.DB_OUT_OF_FILE_SPACE) →
      (trx_undo_create rseg type trx_id xid env).2.1.curr_size = rseg.curr_size) ∧
    ((∀ s ∈ rseg.slots, s.isSome = true) → rseg.curr_size ≠ rseg.max_size →
      (trx_undo_create rseg type trx_id xid env).1 = Dberr.DB_TOO_MANY_CONCURRENT_TRXS ∧
      (trx_undo_create rseg type trx_id xid env).2.1.curr_size = rseg.curr_size) := by
  by_cases hmax : rseg.curr_size = rseg.max_size
  · refine ⟨?_, ?_⟩
    · intro _
      simp [trx_undo_create, hmax]
    · intro _ hne
      exact absurd hmax hne
  · rcases hfi : trx_rsegf_undo_find_free rseg.slots with _ | slot
    · refine ⟨?_, ?_⟩
      · intro _
        simp [trx_undo_create, trx_undo_seg_create, hmax, hfi]
      · intro _ _
        refine ⟨?_, ?_⟩ <;>
          simp [trx_undo_create, trx_undo_seg_create, hmax, hfi]
    · refine ⟨?_, ?_⟩
      · intro herr
        by_cases hres : env.reserve_ok
        · rcases hap : env.alloc_page_no with _ | pno
          · simp [trx_undo_create, trx_undo_seg_create, hmax, hfi, hres, hap]
          · by_cases hm : env.mem_alloc_ok
            · exfalso
              simp [trx_undo_create, trx_undo_seg_create, hmax, hfi, hres, hap, hm]
                at herr
            · exfalso
              simp [trx_undo_create, trx_undo_seg_create, hmax, hfi, hres, hap, hm]
                at herr
        · simp [trx_undo_create, trx_undo_seg_create, hmax, hfi, hres]
      · intro hall _
        exfalso
        unfold trx_rsegf_undo_find_free at hfi
        have hgen : ∀ (m : List (Option Nat)) (start j : Nat),
            List.findIdx? (fun s => s.isNone) m start = some j →
            ∃ x ∈ m, x.isNone = true := by
          intro m
          induction m with
          | nil =>
            intro start j hj
            simp [List.findIdx?] at hj
          | cons a as ih =>
            intro start j hj
            rw [List.findIdx?_cons] at hj
            by_cases ha : a.isNone
            · exact ⟨a, List.mem_cons_self a as, ha⟩
            · rw [if_neg ha] at hj
              obtain ⟨x, hx, hpx⟩ := ih _ _ hj
              exact ⟨x, List.mem_cons_of_mem a hx, hpx⟩
        obtain ⟨x, hx, hpx⟩ := hgen rseg.slots 0 slot hfi
        have hsome := hall x hx
        cases x
        · simp at hsome
        · simp at hpx

/-- Counterexample to C5 as stated: with every slot of the rollback
segment occupied but the size counter already at the maximum,
`trx_undo_create` returns OutOfFileSpace, not
TooManyConcurrentTransactions. -/
theorem C5_counterexample :
    (∀ s ∈ exRsegFullMax.slots, s.isSome = true) ∧
    (trx_undo_create exRsegFullMax UndoType.insert 7 XID.null exEnv).1 =
      Dberr.DB_OUT_OF_FILE_SPACE ∧
    (trx_undo_create exRsegFullMax UndoType.insert 7 XID.null exEnv).1 ≠
      Dberr.DB_TOO_MANY_CONCURRENT_TRXS := by
  refine ⟨?_, ?_, ?_⟩
  · intro s hs
    have hrep : s ∈ List.replicate TRX_RSEG_N_SLOTS (some 9) := hs
    have := (List.eq_of_mem_replicate hrep)
    rw [this]
    rfl
  · simp [trx_undo_create, exRsegFullMax]
  · simp [trx_undo_create, exRsegFullMax]

/-- Witness for C5 at a concrete input: with every slot occupied and the
size counter below the maximum, the result is
TooManyConcurrentTransactions and the size counter is unchanged. -/
theorem C5_witness :
    (trx_undo_create exRsegFull UndoType.insert 7 XID.null exEnv).1 =
      Dberr.DB_TOO_MANY_CONCURRENT_TRXS ∧
    (trx_undo_create exRsegFull UndoType.insert 7 XID.null exEnv).2.1.curr_size =
      exRsegFull.curr_size :=
  (C5_create_error_atomicity exRsegFull UndoType.insert 7 XID.null exEnv).2
    (by
      intro s hs
      have hrep : s ∈ List.replicate TRX_RSEG_N_SLOTS (some 9) := hs
      rw [List.eq_of_mem_replicate hrep]
      rfl)
    (by decide)

/-- C9: when the size counter of the rollback segment has reached the
maximum, `trx_undo_create` fails with OutOfFileSpace at once — the
result is the same for every allocator environment and for every slot
table, and the rollback segment is returned unchanged — and
`trx_undo_add_page` likewise fails without changing the handle, the
rollback segment or the page list, for every allocator environment. -/
theorem C9_out_of_space_at_max (rseg : TrxRseg) (type : UndoType)
    (trx_id : Nat) (xid : XID) (h : rseg.curr_size = rseg.max_size) :
    (∀ env : FspEnv, trx_undo_create rseg type trx_id xid env =
      (Dberr.DB_OUT_OF_FILE_SPACE, rseg, none)) ∧
    (∀ (slots2 : List (Option Nat)) (env : FspEnv),
      trx_undo_create { rseg with slots := slots2 } type trx_id xid env =
        (Dberr.DB_OUT_OF_FILE_SPACE, { rseg with slots := slots2 }, none)) ∧
    (∀ (undo : TrxUndoMem) (pages : List UndoPage) (env : FspEnv),
      trx_undo_add_page undo rseg pages env = (none, undo, rseg, pages)) := by
  refine ⟨?_, ?_, ?_⟩
  · intro env
    simp [trx_undo_create, h]
  · intro slots2 env
    simp [trx_undo_create, h]
  · intro undo pages env
    simp [trx_undo_add_page, h]

/-- Witness for C9 at a concrete input: a maxed-out rollback segment. -/
theorem C9_witness :
    trx_undo_create exRsegFullMax UndoType.insert 7 XID.null exEnv =
      (Dberr.DB_OUT_OF_FILE_SPACE, exRsegFullMax, none) :=
  (C9_out_of_space_at_max exRsegFullMax UndoType.insert 7 XID.null rfl).1 exEnv

/-- C8: the cached-list invariant.  The finish-state decision marks a
log Cached only when its size is one page; moving a finished log into
the update-cached or insert-cached list through the cleanup paths
preserves the invariant that every handle in a cached list has size one;
and the reuse path, which removes a handle from a cached list, preserves
it as well. -/
theorem C8_cached_lists_size_one :
    (∀ (undo : TrxUndoMem) (p : UndoPage),
      (trx_undo_set_state_at_finish undo p).1.state = UndoState.cached →
      (trx_undo_set_state_at_finish undo p).1.size = 1) ∧
    (∀ (rseg : TrxRseg) (undo : TrxUndoMem) (p : UndoPage), cachedInv rseg →
      cachedInv (trx_undo_update_cleanup rseg
        (trx_undo_set_state_at_finish undo p).1)) ∧
    (∀ (rseg : TrxRseg) (undo : TrxUndoMem) (p : UndoPage), cachedInv rseg →
      cachedInv (trx_undo_commit_cleanup rseg
        (trx_undo_set_state_at_finish undo p).1)) ∧
    (∀ (rseg : TrxRseg) (type : UndoType) (trx_id : Nat) (xid : XID)
        (pages : List UndoPage), cachedInv rseg →
      cachedInv (trx_undo_reuse_cached rseg type trx_id xid pages).2.1) := by
  have hfin : ∀ (undo : TrxUndoMem) (p : UndoPage),
      (trx_undo_set_state_at_finish undo p).1.state = UndoState.cached →
      (trx_undo_set_state_at_finish undo p).1.size = 1 := by
    intro undo p h
    unfold trx_undo_set_state_at_finish at h ⊢
    by_cases hc : undo.size = 1 ∧ p.page_free < TRX_UNDO_PAGE_REUSE_LIMIT
    · exact hc.1
    · by_cases ht : undo.type = UndoType.insert <;> simp [hc, ht] at h
  refine ⟨hfin, ?_, ?_, ?_⟩
  · intro rseg undo p hinv
    unfold trx_undo_update_cleanup trx_purge_add_update_undo_to_history
    by_cases hs : (trx_undo_set_state_at_finish undo p).1.state = UndoState.cached
    · rw [if_pos hs]
      refine ⟨hinv.1, ?_⟩
      intro u hu
      rcases List.mem_cons.mp hu with h1 | h2
      · rw [h1]
        exact hfin undo p hs
      · exact hinv.2 u h2
    · rw [if_neg hs]
      exact hinv
  · intro rseg undo p hinv
    unfold trx_undo_commit_cleanup
    by_cases hs : (trx_undo_set_state_at_finish undo p).1.state = UndoState.cached
    · rw [if_pos hs]
      refine ⟨?_, hinv.2⟩
      intro u hu
      rcases List.mem_cons.mp hu with h1 | h2
      · rw [h1]
        exact hfin undo p hs
      · exact hinv.1 u h2
    · rw [if_neg hs]
      exact hinv
  · intro rseg type trx_id xid pages hinv
    unfold trx_undo_reuse_cached
    split
    · dsimp only
      split
      · exact hinv
      · refine ⟨?_, hinv.2⟩
        intro u hu
        exact hinv.1 u (List.mem_of_mem_tail hu)
    · dsimp only
      split
      · exact hinv
      · refine ⟨hinv.1, ?_⟩
        intro u hu
        exact hinv.2 u (List.mem_of_mem_tail hu)

/-- Witness for C8 at a concrete input: cleaning up a finished one-page
update log of the example rollback segment keeps every cached handle at
size one. -/
theorem C8_witness :
    cachedInv (trx_undo_update_cleanup exRseg
      (trx_undo_set_state_at_finish
        (trx_undo_mem_create 0 2 UndoType.update 8 XID.null 6 86)
        (blankPage 6)).1) :=
  C8_cached_lists_size_one.2.1 exRseg
    (trx_undo_mem_create 0 2 UndoType.update 8 XID.null 6 86)
    (blankPage 6) (by decide)

/-- One-step unfolding of the head-truncation loop in plain match/ite
form. -/
theorem truncStartLoop_unfold (hpn ho limit curr hist : Nat)
    (pages : List UndoPage) :
    trx_undo_truncate_start_loop hpn ho limit curr hist pages =
      match trx_undo_get_first_rec pages hpn ho with
      | none => (curr, hist, pages)
      | some (undo_page, rec) =>
        if limit ≤ ((trx_undo_page_get_last_rec undo_page hpn ho).getD rec).undo_no
        then (curr, hist, pages)
        else if undo_page.page_no = hpn then
          trx_undo_truncate_start_loop hpn ho limit curr hist
            (trx_undo_empty_header_page pages hpn ho)
        else
          trx_undo_truncate_start_loop hpn ho limit (curr - 1) (hist - 1)
            (pages.filter (fun p => p.page_no ≠ undo_page.page_no)) := by
  rw [trx_undo_truncate_start_loop]
  cases h : trx_undo_get_first_rec pages hpn ho with
  | none => rfl
  | some pr =>
    rcases pr with ⟨undo_page, rec⟩
    dsimp only
    by_cases hge : limit ≤ ((trx_undo_page_get_last_rec undo_page hpn ho).getD rec).undo_no
    · rw [if_pos hge, if_pos hge]
    · rw [if_neg hge, if_neg hge]
      by_cases hpg : undo_page.page_no = hpn
      · rw [dif_pos hpg, if_pos hpg]
      · rw [dif_neg hpg, if_neg hpg]
        simp [trx_undo_free_page]

/-- C2: behaviour of head truncation with a positive limit.  If the
segment has no first record nothing is removed; if the last record of
the first record's page is at or above the limit nothing is removed;
if the first record lies on the header page, that page is only emptied
(the log-start offset advanced past its records, the header page
retained) and the loop repeats; if it lies on a non-header page, that
page is unlinked from the page list and freed and both the rollback
segment size counter and the persisted history-size counter are
decremented by one, and the loop repeats.  In particular, on the
records `[0,1,2,3]` laid out on pages `[P0(header), P1]`, limit 2
leaves P1 linked and intact with P0 emptied, while limit 4 frees P1 and
empties P0. -/
theorem C2_truncate_start (curr hist : Nat) :
    (∀ (pages : List UndoPage) (hpn ho limit : Nat), 0 < limit →
      trx_undo_get_first_rec pages hpn ho = none →
      trx_undo_truncate_start curr hist pages hpn ho limit = (curr, hist, pages)) ∧
    (∀ (pages : List UndoPage) (hpn ho limit : Nat) (pg : UndoPage) (rec : URec),
      0 < limit →
      trx_undo_get_first_rec pages hpn ho = some (pg, rec) →
      limit ≤ ((trx_undo_page_get_last_rec pg hpn ho).getD rec).undo_no →
      trx_undo_truncate_start curr hist pages hpn ho limit = (curr, hist, pages)) ∧
    (∀ (pages : List UndoPage) (hpn ho limit : Nat) (pg : UndoPage) (rec : URec),
      0 < limit →
      trx_undo_get_first_rec pages hpn ho = some (pg, rec) →
      ((trx_undo_page_get_last_rec pg hpn ho).getD rec).undo_no < limit →
      pg.page_no = hpn →
      trx_undo_truncate_start curr hist pages hpn ho limit =
        trx_undo_truncate_start curr hist
          (trx_undo_empty_header_page pages hpn ho) hpn ho limit) ∧
    (∀ (pages : List UndoPage) (hpn ho limit : Nat) (pg : UndoPage) (rec : URec),
      0 < limit →
      trx_undo_get_first_rec pages hpn ho = some (pg, rec) →
      ((trx_undo_page_get_last_rec pg hpn ho).getD rec).undo_no < limit →
      pg.page_no ≠ hpn →
      trx_undo_truncate_start curr hist pages hpn ho limit =
        trx_undo_truncate_start (curr - 1) (hist - 1)
          (pages.filter (fun p => p.page_no ≠ pg.page_no)) hpn ho limit) ∧
    trx_undo_truncate_start curr hist [exP0, exP1] 1 86 2 =
      (curr, hist, [exP0E, exP1]) ∧
    trx_undo_truncate_start curr hist [exP0, exP1] 1 86 4 =
      (curr - 1, hist - 1, [exP0E]) := by
  have ha : ∀ (c h : Nat) (pages : List UndoPage) (hpn ho limit : Nat), 0 < limit →
      trx_undo_get_first_rec pages hpn ho = none →
      trx_undo_truncate_start c h pages hpn ho limit = (c, h, pages) := by
    intro c h pages hpn ho limit hl hnone
    unfold trx_undo_truncate_start
    rw [if_neg (by omega)]
    rw [truncStartLoop_unfold, hnone]
  have hb : ∀ (c h : Nat) (pages : List UndoPage) (hpn ho limit : Nat) (pg : UndoPage)
      (rec : URec), 0 < limit →
      trx_undo_get_first_rec pages hpn ho = some (pg, rec) →
      limit ≤ ((trx_undo_page_get_last_rec pg hpn ho).getD rec).undo_no →
      trx_undo_truncate_start c h pages hpn ho limit = (c, h, pages) := by
    intro c h pages hpn ho limit pg rec hl hfst hge
    unfold trx_undo_truncate_start
    rw [if_neg (by omega)]
    rw [truncStartLoop_unfold, hfst]
    dsimp only
    rw [if_pos hge]
  have hc : ∀ (c h : Nat) (pages : List UndoPage) (hpn ho limit : Nat) (pg : UndoPage)
      (rec : URec), 0 < limit →
      trx_undo_get_first_rec pages hpn ho = some (pg, rec) →
      ((trx_undo_page_get_last_rec pg hpn ho).getD rec).undo_no < limit →
      pg.page_no = hpn →
      trx_undo_truncate_start c h pages hpn ho limit =
        trx_undo_truncate_start c h
          (trx_undo_empty_header_page pages hpn ho) hpn ho limit := by
    intro c h pages hpn ho limit pg rec hl hfst hlt hpg
    unfold trx_undo_truncate_start
    rw [if_neg (by omega), if_neg (by omega)]
    rw [truncStartLoop_unfold, hfst]
    dsimp only
    rw [if_neg (by omega), if_pos hpg]
  have hd : ∀ (c h : Nat) (pages : List UndoPage) (hpn ho limit : Nat) (pg : UndoPage)
      (rec : URec), 0 < limit →
      trx_undo_get_first_rec pages hpn ho = some (pg, rec) →
      ((trx_undo_page_get_last_rec pg hpn ho).getD rec).undo_no < limit →
      pg.page_no ≠ hpn →
      trx_undo_truncate_start c h pages hpn ho limit =
        trx_undo_truncate_start (c - 1) (h - 1)
          (pages.filter (fun p => p.page_no ≠ pg.page_no)) hpn ho limit := by
    intro c h pages hpn ho limit pg rec hl hfst hlt hpg
    unfold trx_undo_truncate_start
    rw [if_neg (by omega), if_neg (by omega)]
    rw [truncStartLoop_unfold, hfst]
    dsimp only
    rw [if_neg (by omega), if_neg hpg]
  refine ⟨ha curr hist, hb curr hist, hc curr hist, hd curr hist, ?_, ?_⟩
  · rw [hc curr hist [exP0, exP1] 1 86 2 exP0 ⟨200, 0⟩ (by omega) (by decide)
      (by decide) rfl]
    rw [show trx_undo_empty_header_page [exP0, exP1] 1 86 = [exP0E, exP1] from by decide]
    exact hb curr hist [exP0E, exP1] 1 86 2 exP1 ⟨100, 2⟩ (by omega) (by decide)
      (by decide)
  · rw [hc curr hist [exP0, exP1] 1 86 4 exP0 ⟨200, 0⟩ (by omega) (by decide)
      (by decide) rfl]
    rw [show trx_undo_empty_header_page [exP0, exP1] 1 86 = [exP0E, exP1] from by decide]
    rw [hd curr hist [exP0E, exP1] 1 86 4 exP1 ⟨100, 2⟩ (by omega) (by decide)
      (by decide) (by decide)]
    rw [show (List.filter (fun p => decide (p.page_no ≠ exP1.page_no)) [exP0E, exP1])
      = [exP0E] from by decide]
    exact ha (curr - 1) (hist - 1) [exP0E] 1 86 4 (by omega) (by decide)

/-- Witness for C2 at a concrete input: the limit-2 truncation of the
example segment with counters 5 and 7. -/
theorem C2_witness :
    trx_undo_truncate_start 5 7 [exP0, exP1] 1 86 2 = (5, 7, [exP0E, exP1]) :=
  (C2_truncate_start 5 7).2.2.2.2.1

/-- C7 (amended): header round-trip.  For every transaction id, kind and
XA identifier whose format id and length fields lie in `[0, 2^32)`,
writing an undo log header (header create on a fresh segment page, XA
space added, then the XID persisted with the XID-exists flag set at XA
PREPARE) and reconstructing the in-memory handle from the page yields
the same transaction id, kind, state and XA identifier; and when the
XID-exists flag is not set, the reconstructed XA identifier is the null
XID. -/
theorem C7_header_round_trip (tid : Nat) (K : UndoType) (X : XID)
    (pno id space : Nat)
    (hf0 : 0 ≤ X.formatID) (hf1 : X.formatID < 2 ^ 32)
    (hg0 : 0 ≤ X.gtrid_length) (hg1 : X.gtrid_length < 2 ^ 32)
    (hb0 : 0 ≤ X.bqual_length) (hb1 : X.bqual_length < 2 ^ 32) :
    ((trx_undo_mem_create_at_db_start space
        [(trx_undo_set_state_at_prepare
            (trx_undo_mem_create space id K tid X pno
              (trx_undo_header_create (freshSegPage K pno) tid).2.1)
            (trx_undo_header_add_space_for_xid
              (trx_undo_header_create (freshSegPage K pno) tid).1
              (trx_undo_header_create (freshSegPage K pno) tid).2.1)
            false X).2]
        id pno).map (fun r => (r.1.trx_id, r.1.type, r.1.state, r.1.xid))
      = some (tid, K,
          (trx_undo_set_state_at_prepare
            (trx_undo_mem_create space id K tid X pno
              (trx_undo_header_create (freshSegPage K pno) tid).2.1)
            (trx_undo_header_add_space_for_xid
              (trx_undo_header_create (freshSegPage K pno) tid).1
              (trx_undo_header_create (freshSegPage K pno) tid).2.1)
            false X).1.state, X)) ∧
    ((trx_undo_mem_create_at_db_start space
        [trx_undo_header_add_space_for_xid
          (trx_undo_header_create (freshSegPage K pno) tid).1
          (trx_undo_header_create (freshSegPage K pno) tid).2.1]
        id pno).map (fun r => r.1.xid) = some XID.null) := by
  obtain ⟨f, g, b, d⟩ := X
  dsimp only at hf0 hf1 hg0 hg1 hb0 hb1
  constructor
  · simp only [trx_undo_mem_create_at_db_start, trx_undo_set_state_at_prepare,
      trx_undo_header_add_space_for_xid, trx_undo_header_create, freshSegPage,
      trx_undo_page_init, blankPage, writeLogHdr, logHdrAt, trx_undo_mem_create,
      trx_undo_write_xid, trx_undo_read_xid, trx_undo_page_get_last_rec,
      trx_undo_page_recs, trx_undo_page_get_start, trx_undo_page_get_end,
      List.lookup, List.find?, beq_self_eq_true, Option.getD_some]
    simp only [ne_eq, OfNat.ofNat_ne_zero, not_false_eq_true, if_true, if_false,
      reduceIte]
    simp [XID.mk.injEq]
    omega
  · simp only [trx_undo_mem_create_at_db_start,
      trx_undo_header_add_space_for_xid, trx_undo_header_create, freshSegPage,
      trx_undo_page_init, blankPage, writeLogHdr, logHdrAt,
      trx_undo_mem_create, trx_undo_read_xid, trx_undo_page_get_last_rec,
      trx_undo_page_recs, trx_undo_page_get_start, trx_undo_page_get_end,
      List.lookup, List.find?, beq_self_eq_true, Option.getD_some]
    simp

/-- Counterexample to C7 as stated: persisting the XID whose format
identifier is -1 (the null marker) and reading it back yields format
identifier 4294967295, because the `long` field is stored through a
4-byte write; the reconstructed XA identifier differs from the one
written. -/
theorem C7_counterexample :
    (trx_undo_mem_create_at_db_start 0 [exPrepNegPage] 0 5).map
        (fun r => r.1.xid.formatID) = some 4294967295 ∧
    exNegXID.formatID = -1 := by
  constructor
  · decide
  · decide

/-- Witness for C7 at a concrete input: a well-formed XID round-trips
through the prepared header at transaction id 9. -/
theorem C7_witness :
    (trx_undo_mem_create_at_db_start 0
        [(trx_undo_set_state_at_prepare
            (trx_undo_mem_create 0 0 UndoType.update 9 exGoodXID 5
              (trx_undo_header_create (freshSegPage UndoType.update 5) 9).2.1)
            (trx_undo_header_add_space_for_xid
              (trx_undo_header_create (freshSegPage UndoType.update 5) 9).1
              (trx_undo_header_create (freshSegPage UndoType.update 5) 9).2.1)
            false exGoodXID).2]
        0 5).map (fun r => (r.1.trx_id, r.1.type, r.1.state, r.1.xid))
      = some (9, UndoType.update, UndoState.prepared, exGoodXID) := by
  have h := (C7_header_round_trip 9 UndoType.update exGoodXID 5 0 0
    (by decide) (by decide) (by decide) (by decide) (by decide) (by decide)).1
  rw [show (trx_undo_set_state_at_prepare
      (trx_undo_mem_create 0 0 UndoType.update 9 exGoodXID 5
        (trx_undo_header_create (freshSegPage UndoType.update 5) 9).2.1)
      (trx_undo_header_add_space_for_xid
        (trx_undo_header_create (freshSegPage UndoType.update 5) 9).1
        (trx_undo_header_create (freshSegPage UndoType.update 5) 9).2.1)
      false exGoodXID).1.state = UndoState.prepared from rfl] at h
  exact h

/-- One-step unfolding of tail truncation in plain match/ite form. -/
theorem truncEnd_unfold (undo : TrxUndoMem) (curr : Nat) (pages : List UndoPage)
    (limit : Nat) :
    trx_undo_truncate_end undo curr pages limit =
      match pages.find? (fun p => p.page_no == undo.last_page_no) with
      | none => (undo, curr, pages)
      | some undo_page =>
        if (truncEndScan limit (trx_undo_page_recs undo_page undo.hdr_page_no
              undo.hdr_offset).reverse).2 = true ∨
            undo.last_page_no = undo.hdr_page_no then
          match (truncEndScan limit (trx_undo_page_recs undo_page undo.hdr_page_no
              undo.hdr_offset).reverse).1 with
          | some t =>
            (undo, curr, pages.map (fun p =>
              if p.page_no = undo.last_page_no then { p with page_free := t.off }
              else p))
          | none => (undo, curr, pages)
        else
          trx_undo_truncate_end (trx_undo_free_last_page undo curr pages).1
            (trx_undo_free_last_page undo curr pages).2.1
            (trx_undo_free_last_page undo curr pages).2.2 limit := by
  rw [trx_undo_truncate_end]
  cases h : pages.find? (fun p => p.page_no == undo.last_page_no) with
  | none => rfl
  | some undo_page => rfl

/-- The backward record scan expressed through takeWhile/dropWhile: the
final `trunc_here` is the last element of the longest prefix of records
at or above the limit, and the goto was taken exactly when a record
below the limit remains. -/
theorem truncEndScan_spec (limit : Nat) (l : List URec) :
    truncEndScan limit l =
      ((l.takeWhile (recAtOrAbove limit)).getLast?,
       !(l.dropWhile (recAtOrAbove limit)).isEmpty) := by
  induction l with
  | nil => rfl
  | cons r rest ih =>
    unfold truncEndScan
    by_cases hr : limit ≤ r.undo_no
    · have hb : recAtOrAbove limit r = true := by simp [recAtOrAbove, hr]
      rw [if_pos hr, ih, List.takeWhile_cons, List.dropWhile_cons, hb]
      simp only [if_true]
      cases htw : (rest.takeWhile (recAtOrAbove limit)).getLast? with
      | none =>
        have hnil : rest.takeWhile (recAtOrAbove limit) = [] := by
          rwa [List.getLast?_eq_none_iff] at htw
        rw [hnil]
        rfl
      | some t =>
        have hne : rest.takeWhile (recAtOrAbove limit) ≠ [] := by
          intro hx
          rw [hx] at htw
          exact absurd htw (by simp)
        dsimp only
        congr 1
        rcases List.exists_cons_of_ne_nil hne with ⟨y, ys, hys⟩
        rw [hys]
        rw [hys] at htw
        rw [List.getLast?_cons_cons]
        exact htw.symm
    · have hb : recAtOrAbove limit r = false := by simp [recAtOrAbove, hr]
      rw [if_neg hr, List.takeWhile_cons, List.dropWhile_cons, hb]
      rfl

/-- The backward record scan of the last page, over the record list in
page order: `trunc_here` is the first record of the maximal all-at-or-
above-limit suffix, and the goto was taken exactly when some record
below the limit survives on the page. -/
theorem truncEndScan_reverse (limit : Nat) (L : List URec) :
    truncEndScan limit L.reverse =
      ((L.rtakeWhile (recAtOrAbove limit)).head?,
       !(L.rdropWhile (recAtOrAbove limit)).isEmpty) := by
  rw [truncEndScan_spec]
  have h1 : L.reverse.takeWhile (recAtOrAbove limit)
      = (L.rtakeWhile (recAtOrAbove limit)).reverse := by
    rw [List.rtakeWhile, List.reverse_reverse]
  have h2 : L.reverse.dropWhile (recAtOrAbove limit)
      = (L.rdropWhile (recAtOrAbove limit)).reverse := by
    rw [List.rdropWhile, List.reverse_reverse]
  rw [h1, h2, List.getLast?_reverse]
  congr 1
  rw [Bool.eq_iff_iff]
  simp [List.isEmpty_iff]

/-- A list is its kept part followed by its truncated suffix. -/
theorem rdrop_append_rtake (p : URec → Bool) (l : List URec) :
    l.rdropWhile p ++ l.rtakeWhile p = l := by
  rw [List.rdropWhile, List.rtakeWhile, ← List.reverse_append,
    List.takeWhile_append_dropWhile, List.reverse_reverse]

/-- In a list whose undo numbers are non-decreasing, every element is
bounded by the last one. -/
theorem pairwise_le_last : ∀ {M : List URec} {r : URec},
    M.Pairwise (fun a b => a.undo_no ≤ b.undo_no) → M.getLast? = some r →
    ∀ x ∈ M, x.undo_no ≤ r.undo_no := by
  intro M
  induction M with
  | nil =>
    intro r _ hr
    simp at hr
  | cons a as ih =>
    intro r h hr x hx
    rcases List.pairwise_cons.mp h with ⟨ha, has⟩
    cases as with
    | nil =>
      simp at hr hx
      rw [hx, hr]
    | cons b bs =>
      rw [List.getLast?_cons_cons] at hr
      rcases List.mem_cons.mp hx with rfl | hx2
      · have hmem : r ∈ b :: bs := List.mem_of_mem_getLast? hr
        exact ha r hmem
      · exact ih has hr x hx2

/-- Rewinding the free offset of a page to the byte offset of one of its
live records restricts the live records to those before it. -/
theorem recs_rewind (q : UndoPage) (hpn ho : Nat) (t : URec)
    (hnext : q.page_no = hpn → (logHdrAt q ho).next_log = 0)
    (ht : t ∈ trx_undo_page_recs q hpn ho) :
    trx_undo_page_recs { q with page_free := t.off } hpn ho
      = (trx_undo_page_recs q hpn ho).filter (fun r => r.off < t.off) := by
  have htoff : t.off < trx_undo_page_get_end q hpn ho := by
    unfold trx_undo_page_recs at ht
    have := List.of_mem_filter ht
    simp only [decide_eq_true_eq] at this
    exact this.2
  unfold trx_undo_page_recs
  rw [List.filter_filter]
  apply List.filter_congr
  intro r _
  have hstart : trx_undo_page_get_start { q with page_free := t.off } hpn ho
      = trx_undo_page_get_start q hpn ho := by
    unfold trx_undo_page_get_start logHdrAt
    rfl
  have hend : trx_undo_page_get_end { q with page_free := t.off } hpn ho
      = t.off := by
    unfold trx_undo_page_get_end logHdrAt
    by_cases hq : hpn = q.page_no
    · have h0 : (((q.logs.lookup ho).getD default).next_log) = 0 := by
        have := hnext hq.symm
        unfold logHdrAt at this
        exact this
      simp only [hq, if_pos]
      rw [show ({ q with page_free := t.off } : UndoPage).logs = q.logs from rfl,
        h0]
      simp
    · simp only [hq, if_false, reduceIte]
  rw [hstart, hend]
  rw [Bool.eq_iff_iff]
  simp only [decide_eq_true_eq, Bool.and_eq_true]
  omega

/-- The live records of a well-formed page are in strictly increasing
byte-offset order. -/
theorem live_offs_sorted (q : UndoPage) (hpn ho : Nat)
    (h : (q.recs.map URec.off).Pairwise (· < ·)) :
    ((trx_undo_page_recs q hpn ho).map URec.off).Pairwise (· < ·) := by
  unfold trx_undo_page_recs
  exact List.Pairwise.sublist ((List.filter_sublist q.recs).map URec.off) h

/-- Filtering an offset-sorted record list by being before the head of
its suffix keeps exactly the prefix. -/
theorem filter_off_lt_of_sorted (P S : List URec) (t : URec)
    (hs : ((P ++ t :: S).map URec.off).Pairwise (· < ·)) :
    (P ++ t :: S).filter (fun r => r.off < t.off) = P := by
  rw [List.pairwise_map] at hs
  rcases List.pairwise_append.mp hs with ⟨hP, htS, hcross⟩
  rw [List.filter_append]
  have h1 : P.filter (fun r => r.off < t.off) = P := by
    rw [List.filter_eq_self]
    intro a ha
    simp only [decide_eq_true_eq]
    exact hcross a ha t (List.mem_cons_self t S)
  have h2 : (t :: S).filter (fun r => r.off < t.off) = [] := by
    rw [List.filter_eq_nil_iff]
    intro a ha
    simp only [decide_eq_true_eq, not_lt]
    rcases List.mem_cons.mp ha with rfl | ha2
    · exact le_rfl
    · exact le_of_lt ((List.pairwise_cons.mp htS).1 a ha2)
  rw [h1, h2, List.append_nil]

/-- With distinct page numbers, fetching the last page number of a page
list finds the last page. -/
theorem find_last : ∀ (init : List UndoPage) (lp : UndoPage),
    (((init ++ [lp]).map (fun p => p.page_no)).Nodup) →
    (init ++ [lp]).find? (fun p => p.page_no == lp.page_no) = some lp := by
  intro init
  induction init with
  | nil =>
    intro lp _
    simp [List.find?]
  | cons a as ih =>
    intro lp hnd
    rw [List.cons_append, List.map_cons, List.nodup_cons] at hnd
    have hane : a.page_no ≠ lp.page_no := by
      intro he
      exact hnd.1 (he ▸ (by simp : lp.page_no ∈ ((as ++ [lp]).map (fun p => p.page_no))))
    rw [List.cons_append, List.find?_cons_of_neg _ (by simp [hane])]
    exact ih lp hnd.2

/-- With distinct page numbers, unlinking the last page of a page list
leaves exactly the earlier pages. -/
theorem filter_ne_last : ∀ (init : List UndoPage) (lp : UndoPage),
    (((init ++ [lp]).map (fun p => p.page_no)).Nodup) →
    (init ++ [lp]).filter (fun p => p.page_no ≠ lp.page_no) = init := by
  intro init
  induction init with
  | nil =>
    intro lp _
    simp
  | cons a as ih =>
    intro lp hnd
    rw [List.cons_append, List.map_cons, List.nodup_cons] at hnd
    have hane : a.page_no ≠ lp.page_no := by
      intro he
      exact hnd.1 (he ▸ (by simp : lp.page_no ∈ ((as ++ [lp]).map (fun p => p.page_no))))
    rw [List.cons_append, List.filter_cons_of_pos (by simp [hane])]
    rw [ih lp hnd.2]

/-- With distinct page numbers, rewriting the page with the last page
number updates exactly the last page. -/
theorem map_update_last : ∀ (init : List UndoPage) (lp : UndoPage)
    (f : UndoPage → UndoPage),
    (((init ++ [lp]).map (fun p => p.page_no)).Nodup) →
    (init ++ [lp]).map (fun p => if p.page_no = lp.page_no then f p else p)
      = init ++ [f lp] := by
  intro init
  induction init with
  | nil =>
    intro lp f _
    simp
  | cons a as ih =>
    intro lp f hnd
    rw [List.cons_append, List.map_cons, List.nodup_cons] at hnd
    have hane : a.page_no ≠ lp.page_no := by
      intro he
      exact hnd.1 (he ▸ (by simp : lp.page_no ∈ ((as ++ [lp]).map (fun p => p.page_no))))
    rw [List.cons_append, List.map_cons, if_neg hane, ih lp f hnd.2,
      List.cons_append]

/-- One full iteration of tail truncation on a decomposed page list:
either the loop stops — rewinding the free offset of the last page to
the first record of its all-at-or-above-limit suffix when that suffix is
nonempty — or the last page is freed and the loop continues on the
remaining pages. -/
theorem truncEnd_step (undo : TrxUndoMem) (curr limit : Nat)
    (init : List UndoPage) (lp : UndoPage)
    (hnd : ((init ++ [lp]).map (fun p => p.page_no)).Nodup)
    (hlast : undo.last_page_no = lp.page_no) :
    trx_undo_truncate_end undo curr (init ++ [lp]) limit =
      (if (!((trx_undo_page_recs lp undo.hdr_page_no undo.hdr_offset).rdropWhile
            (recAtOrAbove limit)).isEmpty) = true ∨
          lp.page_no = undo.hdr_page_no then
        match ((trx_undo_page_recs lp undo.hdr_page_no undo.hdr_offset).rtakeWhile
            (recAtOrAbove limit)).head? with
        | some t => (undo, curr, init ++ [{ lp with page_free := t.off }])
        | none => (undo, curr, init ++ [lp])
      else
        trx_undo_truncate_end
          { undo with
              last_page_no := ((init.getLast?.map (fun p => p.page_no)).getD FIL_NULL),
              size := undo.size - 1 }
          (curr - 1) init limit) := by
  rw [truncEnd_unfold, hlast, find_last init lp hnd]
  dsimp only
  rw [truncEndScan_reverse]
  by_cases hcond : (!((trx_undo_page_recs lp undo.hdr_page_no
      undo.hdr_offset).rdropWhile (recAtOrAbove limit)).isEmpty) = true ∨
      lp.page_no = undo.hdr_page_no
  · rw [if_pos hcond, if_pos hcond]
    cases hC : ((trx_undo_page_recs lp undo.hdr_page_no
        undo.hdr_offset).rtakeWhile (recAtOrAbove limit)).head? with
    | none => rfl
    | some t =>
      dsimp only
      rw [map_update_last init lp _ hnd]
  · rw [if_neg hcond, if_neg hcond]
    simp only [trx_undo_free_last_page, trx_undo_free_page]
    rw [hlast, filter_ne_last init lp hnd]

/-- After the truncated suffix is dropped, nothing at the tail is left
to truncate. -/
theorem rtake_rdrop_nil (p : URec → Bool) (l : List URec) :
    (l.rdropWhile p).rtakeWhile p = [] := by
  rw [List.rtakeWhile_eq_nil_iff]
  intro hl
  exact List.rdropWhile_last_not p l hl

/-- Tail truncation makes no change when the truncated suffix of the
last page is empty and either a record survives on the last page or the
last page is the header page. -/
theorem truncEnd_noop (undo : TrxUndoMem) (curr limit : Nat)
    (init : List UndoPage) (lp : UndoPage)
    (hnd : ((init ++ [lp]).map (fun p => p.page_no)).Nodup)
    (hlast : undo.last_page_no = lp.page_no)
    (hC : (trx_undo_page_recs lp undo.hdr_page_no undo.hdr_offset).rtakeWhile
        (recAtOrAbove limit) = [])
    (hor : trx_undo_page_recs lp undo.hdr_page_no undo.hdr_offset ≠ [] ∨
        lp.page_no = undo.hdr_page_no) :
    trx_undo_truncate_end undo curr (init ++ [lp]) limit =
      (undo, curr, init ++ [lp]) := by
  rw [truncEnd_step undo curr limit init lp hnd hlast]
  have hK : (trx_undo_page_recs lp undo.hdr_page_no undo.hdr_offset).rdropWhile
      (recAtOrAbove limit)
      = trx_undo_page_recs lp undo.hdr_page_no undo.hdr_offset := by
    have hsplit := rdrop_append_rtake (recAtOrAbove limit)
      (trx_undo_page_recs lp undo.hdr_page_no undo.hdr_offset)
    rw [hC, List.append_nil] at hsplit
    exact hsplit
  have hcond : (!((trx_undo_page_recs lp undo.hdr_page_no
      undo.hdr_offset).rdropWhile (recAtOrAbove limit)).isEmpty) = true ∨
      lp.page_no = undo.hdr_page_no := by
    rcases hor with h | h
    · left
      rw [hK]
      simp [List.isEmpty_iff, h]
    · right
      exact h
  rw [if_pos hcond, hC]
  rfl

/-- Freeing the last page of a well-formed segment leaves a well-formed
segment. -/
theorem segWF_free (undo : TrxUndoMem) (init : List UndoPage) (lp : UndoPage)
    (hwf : segWF undo (init ++ [lp])) (hne : init ≠ []) :
    segWF
      { undo with
          last_page_no := ((init.getLast?.map (fun p => p.page_no)).getD FIL_NULL),
          size := undo.size - 1 }
      init := by
  obtain ⟨_, hhd, hnd, _, hoffs, hnonext⟩ := hwf
  refine ⟨hne, ?_, ?_, rfl, ?_, ?_⟩
  · rw [show (init ++ [lp]).head? = init.head? from by
      cases init
      · exact absurd rfl hne
      · rfl] at hhd
    exact hhd
  · rw [List.map_append] at hnd
    exact List.Nodup.of_append_left hnd
  · intro p hp
    exact hoffs p (List.mem_append_left _ hp)
  · intro p hp hpno
    exact hnonext p (List.mem_append_left _ hp) hpno

/-- In a well-formed segment whose last page is not the header page,
there are earlier pages. -/
theorem init_ne_of_not_hdr (undo : TrxUndoMem) (init : List UndoPage)
    (lp : UndoPage) (hwf : segWF undo (init ++ [lp]))
    (hnh : lp.page_no ≠ undo.hdr_page_no) : init ≠ [] := by
  obtain ⟨_, hhd, _, _, _, _⟩ := hwf
  intro h
  subst h
  simp at hhd
  exact hnh hhd

/-- Tail truncation is idempotent on a well-formed segment (auxiliary
induction on the page count). -/
theorem truncEnd_idem_aux : ∀ (n : Nat) (undo : TrxUndoMem) (curr : Nat)
    (pages : List UndoPage) (limit : Nat), pages.length ≤ n →
    segWF undo pages →
    trx_undo_truncate_end (trx_undo_truncate_end undo curr pages limit).1
      (trx_undo_truncate_end undo curr pages limit).2.1
      (trx_undo_truncate_end undo curr pages limit).2.2 limit
    = trx_undo_truncate_end undo curr pages limit := by
  intro n
  induction n with
  | zero =>
    intro undo curr pages limit hlen hwf
    rcases pages with _ | ⟨p, ps⟩
    · exact absurd rfl hwf.1
    · simp at hlen
  | succ n ih =>
    intro undo curr pages limit hlen hwf
    rcases List.eq_nil_or_concat pages with hnil | ⟨init, lp, hdec⟩
    · exact absurd hnil hwf.1
    · rw [List.concat_eq_append] at hdec
      subst hdec
      obtain ⟨hne0, hhd, hnd, hlast, hoffs, hnonext⟩ := hwf
      have hlast' : undo.last_page_no = lp.page_no := by
        rw [List.getLast?_concat] at hlast
        simpa using hlast.symm
      by_cases hcond : (!((trx_undo_page_recs lp undo.hdr_page_no
          undo.hdr_offset).rdropWhile (recAtOrAbove limit)).isEmpty) = true ∨
          lp.page_no = undo.hdr_page_no
      · cases hC : ((trx_undo_page_recs lp undo.hdr_page_no
            undo.hdr_offset).rtakeWhile (recAtOrAbove limit)).head? with
        | none =>
          have hCnil : (trx_undo_page_recs lp undo.hdr_page_no
              undo.hdr_offset).rtakeWhile (recAtOrAbove limit) = [] := by
            rwa [List.head?_eq_none_iff] at hC
          have hor : trx_undo_page_recs lp undo.hdr_page_no undo.hdr_offset ≠ [] ∨
              lp.page_no = undo.hdr_page_no := by
            rcases hcond with h | h
            · left
              intro hz
              rw [hz] at h
              simp [List.rdropWhile_nil] at h
            · right
              exact h
          have hstep := truncEnd_noop undo curr limit init lp hnd hlast' hCnil hor
          rw [hstep]
          exact hstep
        | some t =>
          have hCne : (trx_undo_page_recs lp undo.hdr_page_no
              undo.hdr_offset).rtakeWhile (recAtOrAbove limit) ≠ [] := by
            intro hz
            rw [hz] at hC
            exact absurd hC (by simp)
          have hstep : trx_undo_truncate_end undo curr (init ++ [lp]) limit
              = (undo, curr, init ++ [{ lp with page_free := t.off }]) := by
            rw [truncEnd_step undo curr limit init lp hnd hlast', if_pos hcond, hC]
          rw [hstep]
          have htC : t ∈ (trx_undo_page_recs lp undo.hdr_page_no
              undo.hdr_offset).rtakeWhile (recAtOrAbove limit) :=
            List.mem_of_mem_head? (Option.mem_def.mpr hC)
          have htL : t ∈ trx_undo_page_recs lp undo.hdr_page_no undo.hdr_offset :=
            (List.rtakeWhile_suffix _ _).subset htC
          obtain ⟨C', hCeq⟩ : ∃ C', (trx_undo_page_recs lp undo.hdr_page_no
              undo.hdr_offset).rtakeWhile (recAtOrAbove limit) = t :: C' := by
            rcases hXeq : (trx_undo_page_recs lp undo.hdr_page_no
                undo.hdr_offset).rtakeWhile (recAtOrAbove limit) with _ | ⟨c, cs⟩
            · exact absurd hXeq hCne
            · rw [hXeq] at hC
              simp only [List.head?_cons, Option.some.injEq] at hC
              exact ⟨cs, by rw [← hC]⟩
          have hdecomp : trx_undo_page_recs lp undo.hdr_page_no undo.hdr_offset
              = ((trx_undo_page_recs lp undo.hdr_page_no
                  undo.hdr_offset).rdropWhile (recAtOrAbove limit)) ++ t :: C' := by
            conv_lhs => rw [← rdrop_append_rtake (recAtOrAbove limit)
              (trx_undo_page_recs lp undo.hdr_page_no undo.hdr_offset)]
            rw [hCeq]
          have hlive' : trx_undo_page_recs { lp with page_free := t.off }
              undo.hdr_page_no undo.hdr_offset
              = (trx_undo_page_recs lp undo.hdr_page_no
                  undo.hdr_offset).rdropWhile (recAtOrAbove limit) := by
            rw [recs_rewind lp undo.hdr_page_no undo.hdr_offset t
              (fun h => hnonext lp (List.mem_append_right _ (by simp)) h) htL]
            conv_lhs => rw [hdecomp]
            refine filter_off_lt_of_sorted _ C' t ?_
            rw [← hdecomp]
            exact live_offs_sorted lp undo.hdr_page_no undo.hdr_offset
              (hoffs lp (List.mem_append_right _ (by simp)))
          have hnd' : ((init ++ [{ lp with page_free := t.off }]).map
              (fun p : UndoPage => p.page_no)).Nodup := by
            have hmapeq : (init ++ [{ lp with page_free := t.off }]).map
                (fun p : UndoPage => p.page_no)
                = (init ++ [lp]).map (fun p => p.page_no) := by
              simp
            rw [hmapeq]
            exact hnd
          apply truncEnd_noop undo curr limit init { lp with page_free := t.off }
            hnd' hlast'
          · rw [hlive']
            exact rtake_rdrop_nil _ _
          · rcases hcond with h | h
            · left
              rw [hlive']
              intro hz
              rw [hz] at h
              simp at h
            · right
              exact h
      · have hinitne : init ≠ [] := by
          intro h
          subst h
          simp at hhd
          exact hcond (Or.inr hhd)
        have hstep : trx_undo_truncate_end undo curr (init ++ [lp]) limit
            = trx_undo_truncate_end
              { undo with
                  last_page_no := ((init.getLast?.map (fun p => p.page_no)).getD
                    FIL_NULL),
                  size := undo.size - 1 }
              (curr - 1) init limit := by
          rw [truncEnd_step undo curr limit init lp hnd hlast', if_neg hcond]
        rw [hstep]
        apply ih _ (curr - 1) init limit
        · rw [List.length_append, List.length_singleton] at hlen
          omega
        · exact segWF_free undo init lp
            ⟨hne0, hhd, hnd, hlast, hoffs, hnonext⟩ hinitne

/-- C4: tail truncation is idempotent.  On a well-formed segment,
applying `trx_undo_truncate_end` a second time with the same limit to
the state produced by the first call changes nothing: no further page is
freed and no free offset changes. -/
theorem C4_truncate_end_idempotent (undo : TrxUndoMem) (curr : Nat)
    (pages : List UndoPage) (limit : Nat) (hwf : segWF undo pages) :
    trx_undo_truncate_end (trx_undo_truncate_end undo curr pages limit).1
      (trx_undo_truncate_end undo curr pages limit).2.1
      (trx_undo_truncate_end undo curr pages limit).2.2 limit
    = trx_undo_truncate_end undo curr pages limit :=
  truncEnd_idem_aux pages.length undo curr pages limit le_rfl hwf

/-- Witness for C4 at a concrete input: truncating the example two-page
log at limit 2 twice equals truncating it once. -/
theorem C4_witness :
    trx_undo_truncate_end (trx_undo_truncate_end exUndo2 10 [exP0, exP1] 2).1
      (trx_undo_truncate_end exUndo2 10 [exP0, exP1] 2).2.1
      (trx_undo_truncate_end exUndo2 10 [exP0, exP1] 2).2.2 2
    = trx_undo_truncate_end exUndo2 10 [exP0, exP1] 2 :=
  C4_truncate_end_idempotent exUndo2 10 [exP0, exP1] 2 (by decide)

/-- The records of a page list ending in a given page are the records of
the earlier pages followed by those of the last page. -/
theorem liveJoin_concat (init : List UndoPage) (q : UndoPage) (hpn ho : Nat) :
    liveJoin (init ++ [q]) hpn ho
      = liveJoin init hpn ho ++ trx_undo_page_recs q hpn ho := by
  unfold liveJoin
  rw [List.map_append]
  simp

/-- If the last page of a well-formed page list is the header page, it
is the only page. -/
theorem init_nil_of_hdr (undo : TrxUndoMem) (init : List UndoPage)
    (lp : UndoPage)
    (hhd : ((init ++ [lp]).head?.map (fun p => p.page_no))
      = some undo.hdr_page_no)
    (hnd : ((init ++ [lp]).map (fun p => p.page_no)).Nodup)
    (hlp : lp.page_no = undo.hdr_page_no) : init = [] := by
  rcases init with _ | ⟨a, as⟩
  · rfl
  · exfalso
    simp only [List.cons_append, List.head?_cons, Option.map_some] at hhd
    have ha : a.page_no = lp.page_no := by
      rw [hlp]
      simpa using hhd
    rw [List.cons_append, List.map_cons, List.nodup_cons] at hnd
    exact hnd.1 (ha ▸ (by simp : lp.page_no ∈ ((as ++ [lp]).map (fun p => p.page_no))))

/-- Tail truncation removes exactly the records at or above the limit
(auxiliary induction on the page count): afterwards the live records of
the page list are those that were below the limit, and the header page
is still the first page of the list. -/
theorem truncEnd_liveJoin_aux : ∀ (n : Nat) (undo : TrxUndoMem) (curr : Nat)
    (pages : List UndoPage) (limit : Nat), pages.length ≤ n →
    segWF undo pages →
    ascUndoNos pages undo.hdr_page_no undo.hdr_offset →
    liveJoin (trx_undo_truncate_end undo curr pages limit).2.2
        undo.hdr_page_no undo.hdr_offset
      = (liveJoin pages undo.hdr_page_no undo.hdr_offset).filter
          (fun r => r.undo_no < limit) ∧
    ((trx_undo_truncate_end undo curr pages limit).2.2.head?.map
      (fun p => p.page_no)) = some undo.hdr_page_no := by
  intro n
  induction n with
  | zero =>
    intro undo curr pages limit hlen hwf hasc
    rcases pages with _ | ⟨p, ps⟩
    · exact absurd rfl hwf.1
    · simp at hlen
  | succ n ih =>
    intro undo curr pages limit hlen hwf hasc
    rcases List.eq_nil_or_concat pages with hnil | ⟨init, lp, hdec⟩
    · exact absurd hnil hwf.1
    · rw [List.concat_eq_append] at hdec
      subst hdec
      obtain ⟨hne0, hhd, hnd, hlast, hoffs, hnonext⟩ := hwf
      have hlast' : undo.last_page_no = lp.page_no := by
        rw [List.getLast?_concat] at hlast
        simpa using hlast.symm
      have hascP : (liveJoin (init ++ [lp]) undo.hdr_page_no
          undo.hdr_offset).Pairwise (fun a b => a.undo_no ≤ b.undo_no) :=
        List.pairwise_map.mp hasc
      rw [liveJoin_concat] at hascP
      by_cases hcond : (!((trx_undo_page_recs lp undo.hdr_page_no
          undo.hdr_offset).rdropWhile (recAtOrAbove limit)).isEmpty) = true ∨
          lp.page_no = undo.hdr_page_no
      · cases hC : ((trx_undo_page_recs lp undo.hdr_page_no
            undo.hdr_offset).rtakeWhile (recAtOrAbove limit)).head? with
        | none =>
          have hCnil : (trx_undo_page_recs lp undo.hdr_page_no
              undo.hdr_offset).rtakeWhile (recAtOrAbove limit) = [] := by
            rwa [List.head?_eq_none_iff] at hC
          have hstep : trx_undo_truncate_end undo curr (init ++ [lp]) limit
              = (undo, curr, init ++ [lp]) := by
            rw [truncEnd_step undo curr limit init lp hnd hlast',
              if_pos hcond, hC]
          rw [hstep]
          refine ⟨?_, hhd⟩
          by_cases hLnil : trx_undo_page_recs lp undo.hdr_page_no
              undo.hdr_offset = []
          · have hKnil : (trx_undo_page_recs lp undo.hdr_page_no
                undo.hdr_offset).rdropWhile (recAtOrAbove limit) = [] := by
              rw [hLnil, List.rdropWhile_nil]
            have hlp : lp.page_no = undo.hdr_page_no := by
              rcases hcond with h | h
              · rw [hKnil] at h
                simp at h
              · exact h
            have hinil := init_nil_of_hdr undo init lp hhd hnd hlp
            subst hinil
            rw [liveJoin_concat, hLnil]
            simp [liveJoin]
          · have hfail := List.rtakeWhile_eq_nil_iff.mp hCnil hLnil
            have hlt : ((trx_undo_page_recs lp undo.hdr_page_no
                undo.hdr_offset).getLast hLnil).undo_no < limit := by
              simp [recAtOrAbove] at hfail
              omega
            rw [liveJoin_concat]
            symm
            rw [List.filter_eq_self]
            intro x hx
            simp only [decide_eq_true_eq]
            have hle := pairwise_le_last hascP
              (by
                rw [List.getLast?_append_of_ne_nil _ hLnil,
                  List.getLast?_eq_getLast _ hLnil])
              x hx
            omega
        | some t =>
          have hCne : (trx_undo_page_recs lp undo.hdr_page_no
              undo.hdr_offset).rtakeWhile (recAtOrAbove limit) ≠ [] := by
            intro hz
            rw [hz] at hC
            exact absurd hC (by simp)
          have hstep : trx_undo_truncate_end undo curr (init ++ [lp]) limit
              = (undo, curr, init ++ [{ lp with page_free := t.off }]) := by
            rw [truncEnd_step undo curr limit init lp hnd hlast',
              if_pos hcond, hC]
          rw [hstep]
          have htC : t ∈ (trx_undo_page_recs lp undo.hdr_page_no
              undo.hdr_offset).rtakeWhile (recAtOrAbove limit) :=
            List.mem_of_mem_head? (Option.mem_def.mpr hC)
          have htL : t ∈ trx_undo_page_recs lp undo.hdr_page_no undo.hdr_offset :=
            (List.rtakeWhile_suffix _ _).subset htC
          obtain ⟨C', hCeq⟩ : ∃ C', (trx_undo_page_recs lp undo.hdr_page_no
              undo.hdr_offset).rtakeWhile (recAtOrAbove limit) = t :: C' := by
            rcases hXeq : (trx_undo_page_recs lp undo.hdr_page_no
                undo.hdr_offset).rtakeWhile (recAtOrAbove limit) with _ | ⟨c, cs⟩
            · exact absurd hXeq hCne
            · rw [hXeq] at hC
              simp only [List.head?_cons, Option.some.injEq] at hC
              exact ⟨cs, by rw [← hC]⟩
          have hdecomp : trx_undo_page_recs lp undo.hdr_page_no undo.hdr_offset
              = ((trx_undo_page_recs lp undo.hdr_page_no
                  undo.hdr_offset).rdropWhile (recAtOrAbove limit)) ++ t :: C' := by
            conv_lhs => rw [← rdrop_append_rtake (recAtOrAbove limit)
              (trx_undo_page_recs lp undo.hdr_page_no undo.hdr_offset)]
            rw [hCeq]
          have hlive' : trx_undo_page_recs { lp with page_free := t.off }
              undo.hdr_page_no undo.hdr_offset
              = (trx_undo_page_recs lp undo.hdr_page_no
                  undo.hdr_offset).rdropWhile (recAtOrAbove limit) := by
            rw [recs_rewind lp undo.hdr_page_no undo.hdr_offset t
              (fun h => hnonext lp (List.mem_append_right _ (by simp)) h) htL]
            conv_lhs => rw [hdecomp]
            refine filter_off_lt_of_sorted _ C' t ?_
            rw [← hdecomp]
            exact live_offs_sorted lp undo.hdr_page_no undo.hdr_offset
              (hoffs lp (List.mem_append_right _ (by simp)))
          constructor
          · rw [liveJoin_concat, hlive', liveJoin_concat]
            conv_rhs => rw [hdecomp]
            rw [List.filter_append, List.filter_append]
            have h1 : (t :: C').filter (fun r => r.undo_no < limit) = [] := by
              rw [List.filter_eq_nil_iff]
              intro a ha
              have hmem : a ∈ (trx_undo_page_recs lp undo.hdr_page_no
                  undo.hdr_offset).rtakeWhile (recAtOrAbove limit) := by
                rw [hCeq]
                exact ha
              have := List.mem_rtakeWhile_imp hmem
              simp [recAtOrAbove] at this
              simp only [decide_eq_true_eq]
              omega
            rw [h1, List.append_nil]
            by_cases hKnil : (trx_undo_page_recs lp undo.hdr_page_no
                undo.hdr_offset).rdropWhile (recAtOrAbove limit) = []
            · have hlp : lp.page_no = undo.hdr_page_no := by
                rcases hcond with h | h
                · rw [hKnil] at h
                  simp at h
                · exact h
              have hinil := init_nil_of_hdr undo init lp hhd hnd hlp
              subst hinil
              rw [hKnil]
              simp [liveJoin]
            · have hlastK := List.rdropWhile_last_not (recAtOrAbove limit)
                (trx_undo_page_recs lp undo.hdr_page_no undo.hdr_offset) hKnil
              have hltK : (((trx_undo_page_recs lp undo.hdr_page_no
                  undo.hdr_offset).rdropWhile (recAtOrAbove limit)).getLast
                  hKnil).undo_no < limit := by
                simp [recAtOrAbove] at hlastK
                omega
              have hascM : ((liveJoin init undo.hdr_page_no undo.hdr_offset)
                  ++ (trx_undo_page_recs lp undo.hdr_page_no
                    undo.hdr_offset).rdropWhile (recAtOrAbove limit)).Pairwise
                  (fun a b => a.undo_no ≤ b.undo_no) := by
                have h2 := hascP
                conv at h2 => rw [hdecomp]
                rw [← List.append_assoc] at h2
                exact (List.pairwise_append.mp h2).1
              have hall : ∀ x ∈ (liveJoin init undo.hdr_page_no undo.hdr_offset)
                  ++ (trx_undo_page_recs lp undo.hdr_page_no
                    undo.hdr_offset).rdropWhile (recAtOrAbove limit),
                  x.undo_no < limit := by
                intro x hx
                have hle := pairwise_le_last hascM
                  (by
                    rw [List.getLast?_append_of_ne_nil _ hKnil,
                      List.getLast?_eq_getLast _ hKnil])
                  x hx
                omega
              have h2 : (liveJoin init undo.hdr_page_no undo.hdr_offset).filter
                  (fun r => r.undo_no < limit)
                  = liveJoin init undo.hdr_page_no undo.hdr_offset := by
                rw [List.filter_eq_self]
                intro a ha
                simp only [decide_eq_true_eq]
                exact hall a (List.mem_append_left _ ha)
              have h3 : ((trx_undo_page_recs lp undo.hdr_page_no
                  undo.hdr_offset).rdropWhile (recAtOrAbove limit)).filter
                  (fun r => r.undo_no < limit)
                  = (trx_undo_page_recs lp undo.hdr_page_no
                      undo.hdr_offset).rdropWhile (recAtOrAbove limit) := by
                rw [List.filter_eq_self]
                intro a ha
                simp only [decide_eq_true_eq]
                exact hall a (List.mem_append_right _ ha)
              rw [h2, h3]
          · rcases init with _ | ⟨a, as⟩
            · simp only [List.nil_append, List.head?_cons, Option.map_some]
              simpa using hhd
            · simpa using hhd
      · have hcondn := hcond
        push_neg at hcondn
        have hallL : ∀ x ∈ trx_undo_page_recs lp undo.hdr_page_no
            undo.hdr_offset, recAtOrAbove limit x = true := by
          have h1 := hcondn.1
          simp [List.isEmpty_iff] at h1
          exact h1
        have hinitne : init ≠ [] :=
          init_ne_of_not_hdr undo init lp
            ⟨hne0, hhd, hnd, hlast, hoffs, hnonext⟩ hcondn.2
        have hstep : trx_undo_truncate_end undo curr (init ++ [lp]) limit
            = trx_undo_truncate_end
              { undo with
                  last_page_no := ((init.getLast?.map (fun p => p.page_no)).getD
                    FIL_NULL),
                  size := undo.size - 1 }
              (curr - 1) init limit := by
          rw [truncEnd_step undo curr limit init lp hnd hlast', if_neg hcond]
        rw [hstep]
        have hwf' := segWF_free undo init lp
          ⟨hne0, hhd, hnd, hlast, hoffs, hnonext⟩ hinitne
        have hasc' : ascUndoNos init undo.hdr_page_no undo.hdr_offset := by
          unfold ascUndoNos
          exact List.pairwise_map.mpr (List.pairwise_append.mp hascP).1
        have hlen' : init.length ≤ n := by
          rw [List.length_append, List.length_singleton] at hlen
          omega
        obtain ⟨ih1, ih2⟩ := ih
          { undo with
              last_page_no := ((init.getLast?.map (fun p => p.page_no)).getD
                FIL_NULL),
              size := undo.size - 1 }
          (curr - 1) init limit hlen' hwf' hasc'
        dsimp only at ih1 ih2
        refine ⟨?_, ih2⟩
        rw [ih1, liveJoin_concat, List.filter_append]
        have h1 : (trx_undo_page_recs lp undo.hdr_page_no
            undo.hdr_offset).filter (fun r => r.undo_no < limit) = [] := by
          rw [List.filter_eq_nil_iff]
          intro a ha
          have := hallL a ha
          simp [recAtOrAbove] at this
          simp only [decide_eq_true_eq]
          omega
        rw [h1, List.append_nil]

/-- C3: tail truncation truncates exactly the records whose undo number
is at or above the limit, walking from the last page backward — after
`trx_undo_truncate_end`, the live records of the segment are precisely
the original records below the limit (whole non-header pages without a
surviving record having been unlinked and freed, and the free offset of
the final page rewound) — and the header page is never freed: it is
still the first page of the page list. -/
theorem C3_truncate_end (undo : TrxUndoMem) (curr : Nat)
    (pages : List UndoPage) (limit : Nat) (hwf : segWF undo pages)
    (hasc : ascUndoNos pages undo.hdr_page_no undo.hdr_offset) :
    liveJoin (trx_undo_truncate_end undo curr pages limit).2.2
        undo.hdr_page_no undo.hdr_offset
      = (liveJoin pages undo.hdr_page_no undo.hdr_offset).filter
          (fun r => r.undo_no < limit) ∧
    ((trx_undo_truncate_end undo curr pages limit).2.2.head?.map
      (fun p => p.page_no)) = some undo.hdr_page_no :=
  truncEnd_liveJoin_aux pages.length undo curr pages limit le_rfl hwf hasc

/-- Witness for C3 at a concrete input: truncating the example two-page
log at limit 2 keeps exactly the records 0 and 1 and keeps the header
page first. -/
theorem C3_witness :
    liveJoin (trx_undo_truncate_end exUndo2 10 [exP0, exP1] 2).2.2
        exUndo2.hdr_page_no exUndo2.hdr_offset
      = (liveJoin [exP0, exP1] exUndo2.hdr_page_no exUndo2.hdr_offset).filter
          (fun r => r.undo_no < 2) ∧
    ((trx_undo_truncate_end exUndo2 10 [exP0, exP1] 2).2.2.head?.map
      (fun p => p.page_no)) = some exUndo2.hdr_page_no :=
  C3_truncate_end exUndo2 10 [exP0, exP1] 2 (by decide) (by decide)

end TrxUndo
